import Mathlib

/-! # Block-synchronisation core of the gossamer node: `dot/sync`

A shallow embedding of the chain-sync engine (`dot/sync/chain_sync.go`,
`dot/sync/disjoint_block_set.go`) together with the properties its
specification states about it.

Conventions of the embedding

* `*big.Int` block numbers are `Int`; a pointer that may be `nil` is an `Option`.
* `common.Hash` (32 bytes) is a natural number, the zero value being `0`.
* Go maps are association lists with at most one entry per key; the order of the
  list stands for the (unspecified) iteration order of the Go map.
* Channels are the list of the values sent on them so far, oldest first.
* The collaborators `BlockState` and `Network` are records of functions that are
  passed explicitly.
-/

namespace Gossamer

/-! ## Library types used by the sync package -/

/-- Modelled from the spec: the type `common.Hash` of the library, 32 bytes read as a
number. -/
abbrev common.Hash := Nat

/-- Modelled from the spec: the zero value `common.Hash{}` (also `common.EmptyHash`), the
"empty" hash of section 3. -/
def common.EmptyHash : common.Hash := 0

/-- Modelled from the spec: the type `peer.ID` of the library, a string. -/
abbrev peer.ID := String

/-- Modelled from the spec: the fields of `types.Header` that the sync engine reads
(`dot/types` is not under `src/`). -/
structure types.Header where
  ParentHash : common.Hash
  Number : Int
  deriving DecidableEq, Repr

/-- Modelled from the spec: the type `types.Body`, the encoded extrinsics of a block. -/
structure types.Body where
  bytes : List Nat
  deriving DecidableEq, Repr

/-- Modelled from the spec: the type `types.Block`, a header with a body, the body
pointer possibly nil. -/
structure types.Block where
  Header : types.Header
  Body : Option types.Body
  deriving DecidableEq, Repr

/-- Modelled from the spec: the type `types.BlockData`, one entry of a block response
(section 6, wire types): every field but the hash is optional. -/
structure types.BlockData where
  Hash : common.Hash
  Header : Option types.Header
  Body : Option types.Body
  Justification : Option (List Nat)
  deriving DecidableEq, Repr

/-- Modelled from the spec: the type `variadic.Uint64OrHash`, the starting block of a
request (section 6: a `u64` or a hash). -/
inductive variadic.Uint64OrHash where
  | number (n : Nat)
  | hash (h : common.Hash)
  deriving DecidableEq, Repr

/-- Modelled from the spec: the type `network.BlockRequestMessage` (section 6, wire
types; `dot/network` is not under `src/`).  `StartingBlock`, `EndBlockHash` and `Max`
are pointers in Go; `none` is both the nil pointer and the optional that is not set. -/
structure BlockRequestMessage where
  RequestedData : Nat
  StartingBlock : Option variadic.Uint64OrHash
  EndBlockHash : Option common.Hash
  Direction : Nat
  Max : Option Nat
  deriving DecidableEq, Repr

/-- Modelled from the spec: the type `network.BlockResponseMessage` (section 6). -/
structure BlockResponseMessage where
  BlockData : List types.BlockData
  deriving DecidableEq, Repr

/-- Modelled from the spec: the direction `DIR_ASCENDING` (section 6: 0 is ascending). -/
def DIR_ASCENDING : Nat := 0

/-- Modelled from the spec: the direction `DIR_DESCENDING` (section 6: 1 is
descending). -/
def DIR_DESCENDING : Nat := 1

/-- Modelled from the spec: the bit `network.RequestedDataHeader` (section 6). -/
def RequestedDataHeader : Nat := 1

/-- Modelled from the spec: the bit `network.RequestedDataBody` (section 6). -/
def RequestedDataBody : Nat := 2

/-- Modelled from the spec: the bit `network.RequestedDataJustification` (section 6). -/
def RequestedDataJustification : Nat := 4

/-- From `bootstrap_syncer.go`: `bootstrapRequestData`. -/
def bootstrapRequestData : Nat :=
  RequestedDataHeader + RequestedDataBody + RequestedDataJustification

/-- Modelled from the spec: the constant `MAX_RESPONSE_SIZE`, which `src/` uses and does
not declare (section 6: 128 blocks for each response). -/
def MAX_RESPONSE_SIZE : Nat := 128

/-- From `chain_sync.go`: `MAX_WORKERS`. -/
def MAX_WORKERS : Nat := 4

/-- Modelled from the spec: the named errors of the sync package (section 7; `src/`
uses them in the tests and does not declare them), and `other` for an error of a
collaborator. -/
inductive SyncError where
  | errWorkerMissingStartNumber
  | errWorkerMissingTargetNumber
  | errInvalidDirection
  | errEmptyBlockData
  | errNilBlockData
  | errNilResponse
  | errNilHeaderInResponse
  | errNilBodyInResponse
  | errResponseIsNotChain
  | errNoPeers
  | errPeerOnInvalidFork
  | other (msg : String)
  deriving DecidableEq, Repr

/-! ## Go maps as association lists -/

/-- Read `m[k]`: the value stored under `k`, if any. -/
def Map.get {κ ν : Type} [DecidableEq κ] (m : List (κ × ν)) (k : κ) : Option ν :=
  match m with
  | [] => none
  | (k0, v) :: rest => if k0 = k then some v else Map.get rest k

/-- Assign `m[k] = v`: replace the entry of `k`, or add one. -/
def Map.set {κ ν : Type} [DecidableEq κ] (m : List (κ × ν)) (k : κ) (v : ν) : List (κ × ν) :=
  match m with
  | [] => [(k, v)]
  | (k0, v0) :: rest => if k0 = k then (k, v) :: rest else (k0, v0) :: Map.set rest k v

/-- Remove with `delete(m, k)`. -/
def Map.delete {κ ν : Type} [DecidableEq κ] (m : List (κ × ν)) (k : κ) : List (κ × ν) :=
  m.filter (fun e => decide (e.1 ≠ k))

/-- The keys of the map in iteration order. -/
def Map.keys {κ ν : Type} (m : List (κ × ν)) : List κ :=
  m.map Prod.fst

/-! ## chain_sync.go: the data of the sync engine -/

/-- From `chain_sync.go`: `peerState`, the best block a peer has reported. -/
structure peerState where
  who : peer.ID
  hash : common.Hash
  number : Int
  deriving DecidableEq, Repr

/-- From `chain_sync.go`: `workerError`. -/
structure workerError where
  err : SyncError
  who : peer.ID
  deriving DecidableEq, Repr

/-- From `chain_sync.go`: `worker`, with the `requestData` field that
`bootstrap_syncer.go` and the tests use.  The numbers are `*big.Int` and may be nil. -/
structure worker where
  id : Nat
  startHash : common.Hash
  startNumber : Option Int
  targetHash : common.Hash
  targetNumber : Option Int
  requestData : Nat
  direction : Nat
  duration : Nat
  err : Option workerError
  deriving DecidableEq, Repr

/-! ## Expanding a worker into requests -/

/-- Modelled from the spec: `nFull` of section 4.3, the number of requests with `max`
unset, `diff / MAX_RESPONSE_SIZE` for `diff = |target_number − start_number|`. -/
def workerNumFull (diff : Nat) : Nat :=
  diff / MAX_RESPONSE_SIZE

/-- Modelled from the spec: `last` of section 4.3, the explicit `max` of the final request:
`rem + 1` if `rem > 0` and `MAX_RESPONSE_SIZE + 1` else, for `rem = diff % MAX_RESPONSE_SIZE`;
if `diff = 0` the worker requests exactly one block. -/
def workerLastMax (diff : Nat) : Nat :=
  if diff = 0 then 1
  else if diff % MAX_RESPONSE_SIZE > 0 then diff % MAX_RESPONSE_SIZE + 1
  else MAX_RESPONSE_SIZE + 1

/-- Modelled from the spec: the request number `i` (from 0) of section 4.3 for worker `w`:
the first starts at the start hash if set, else at the start number, the later ones
`MAX_RESPONSE_SIZE` blocks further each in the direction of the worker; the requests
before the final one have `max` unset, the final one has `max = last` and the target hash
as end hash when that is known; requested data and direction are copied. -/
def workerRequest (w : worker) (start : Int) (diff i : Nat) : BlockRequestMessage :=
  { RequestedData := w.requestData
    StartingBlock :=
      if i = 0 then
        (if w.startHash ≠ common.EmptyHash then some (.hash w.startHash)
         else some (.number start.toNat))
      else if w.direction = DIR_DESCENDING then
        some (.number (start - (MAX_RESPONSE_SIZE * i : Nat)).toNat)
      else some (.number (start + (MAX_RESPONSE_SIZE * i : Nat)).toNat)
    EndBlockHash :=
      if i = workerNumFull diff ∧ w.targetHash ≠ common.EmptyHash then some w.targetHash
      else none
    Direction := w.direction
    Max := if i = workerNumFull diff then some (workerLastMax diff) else none }

/-- Modelled from the spec: `workerToRequests`, which `src/` holds only the test of
(`TestWorkerToRequests`), by the rules of section 4.3: the three failures in their
order, then `nFull` requests with `max` unset and a final request with `max = last`. -/
def workerToRequests (w : worker) : Except SyncError (List BlockRequestMessage) :=
  match w.startNumber with
  | none => .error .errWorkerMissingStartNumber
  | some start =>
    match w.targetNumber with
    | none => .error .errWorkerMissingTargetNumber
    | some target =>
      if (w.direction = DIR_ASCENDING ∧ target < start) ∨
          (w.direction = DIR_DESCENDING ∧ target > start) then
        .error .errInvalidDirection
      else
        .ok ((List.range (workerNumFull (target - start).natAbs + 1)).map
          (workerRequest w start (target - start).natAbs))

/-- Blocks a request asks for: its explicit `max`, and `MAX_RESPONSE_SIZE` when `max` is
unset. -/
def requestedBlocks (req : BlockRequestMessage) : Nat :=
  req.Max.getD MAX_RESPONSE_SIZE

/-- Blocks a list of requests asks for together. -/
def totalRequestedBlocks (reqs : List BlockRequestMessage) : Nat :=
  (reqs.map requestedBlocks).sum

/-- A worker with only the fields of `TestWorkerToRequests` set. -/
def testWorker (startHash : common.Hash) (start : Int) (targetHash : common.Hash)
    (target : Int) (direction : Nat) : worker :=
  { id := 0, startHash := startHash, startNumber := some start, targetHash := targetHash,
    targetNumber := some target, requestData := bootstrapRequestData,
    direction := direction, duration := 0, err := none }

/-- A worker is valid when both numbers are set and the direction agrees with their
order. -/
def validWorker (w : worker) (start target : Int) : Prop :=
  w.startNumber = some start ∧ w.targetNumber = some target ∧
    ((w.direction = DIR_ASCENDING ∧ start ≤ target) ∨
      (w.direction = DIR_DESCENDING ∧ target ≤ start))

instance (w : worker) (start target : Int) : Decidable (validWorker w start target) := by
  unfold validWorker; exact inferInstance

/-! ## disjoint_block_set.go -/

/-- From `disjoint_block_set.go`: `pendingBlock`. -/
structure pendingBlock where
  hash : common.Hash
  number : Int
  header : Option types.Header
  body : Option types.Body
  deriving DecidableEq, Repr

/-- From `disjoint_block_set.go`: `disjointBlockSet`, the map `blocks` (the mutex guards
every method, so each method is one step). -/
structure disjointBlockSet where
  blocks : List (common.Hash × pendingBlock)
  deriving DecidableEq, Repr

/-- From `disjoint_block_set.go`: `newDisjointBlockSet`. -/
def newDisjointBlockSet : disjointBlockSet := { blocks := [] }

/-- From `disjoint_block_set.go`: `addHashAndNumber`. -/
def disjointBlockSet.addHashAndNumber (s : disjointBlockSet) (hash : common.Hash)
    (number : Int) : disjointBlockSet :=
  { blocks := Map.set s.blocks hash
      { hash := hash, number := number, header := none, body := none } }

/-- From `disjoint_block_set.go`: `addHeader`; `hashOf` is `(*types.Header).Hash`. -/
def disjointBlockSet.addHeader (hashOf : types.Header → common.Hash) (s : disjointBlockSet)
    (header : types.Header) : disjointBlockSet :=
  let hash := hashOf header
  match Map.get s.blocks hash with
  | some b => { blocks := Map.set s.blocks hash { b with header := some header } }
  | none =>
    { blocks := Map.set s.blocks hash
        { hash := hash, number := header.Number, header := some header, body := none } }

/-- From `disjoint_block_set.go`: `addBlock`. -/
def disjointBlockSet.addBlock (hashOf : types.Header → common.Hash) (s : disjointBlockSet)
    (block : types.Block) : disjointBlockSet :=
  let hash := hashOf block.Header
  match Map.get s.blocks hash with
  | some b =>
    { blocks := Map.set s.blocks hash
        { b with header := some block.Header, body := block.Body } }
  | none =>
    { blocks := Map.set s.blocks hash
        { hash := hash, number := block.Header.Number, header := some block.Header,
          body := block.Body } }

/-- From `disjoint_block_set.go`: `removeBlock`. -/
def disjointBlockSet.removeBlock (s : disjointBlockSet) (hash : common.Hash) :
    disjointBlockSet :=
  { blocks := Map.delete s.blocks hash }

/-- From `disjoint_block_set.go`: `removeLowerBlocks`. -/
def disjointBlockSet.removeLowerBlocks (s : disjointBlockSet) (num : Int) :
    disjointBlockSet :=
  { blocks := s.blocks.filter (fun e => decide (¬ e.2.number ≤ num)) }

/-- The query `hasBlock` the tests use: whether the map has the key. -/
def disjointBlockSet.hasBlock (s : disjointBlockSet) (hash : common.Hash) : Bool :=
  (Map.get s.blocks hash).isSome

/-! ## chain_sync.go: the engine -/

/-- Modelled from the spec: the interface `BlockState` (section 6) as far as the sync
package calls it; its declaration is not under `src/`. -/
structure BlockState where
  BestBlockHeader : Except SyncError types.Header
  HasHeader : common.Hash → Except SyncError Bool
  GetHashByNumber : Int → Except SyncError common.Hash
  GetHighestFinalisedHeader : Except SyncError types.Header

/-- Modelled from the spec: the interface `Network` (section 6) as far as `doSync` calls
it; the response pointer may be nil without an error. -/
structure Network where
  DoBlockRequest : peer.ID → BlockRequestMessage →
    Except SyncError (Option BlockResponseMessage)

/-- From `chain_sync.go`: `chainSyncState`. -/
abbrev chainSyncState := Nat

/-- From `chain_sync.go`: state `bootstrap`. -/
def bootstrap : chainSyncState := 0

/-- From `chain_sync.go`: state `idle`. -/
def idle : chainSyncState := 1

/-- Capacity of `workQueue` and of `resultQueue` in `newChainSync`. -/
def queueCapacity : Nat := 1024

/-- From `chain_sync.go`: `chainSync`, without the two collaborators.  `readyBlocks` is
the sequence of blocks sent on the channel, oldest first. -/
structure chainSync where
  workQueue : List peerState
  resultQueue : List worker
  peerState : List (peer.ID × peerState)
  nextWorker : Nat
  workers : List (Nat × worker)
  readyBlocks : List types.BlockData
  pendingBlocks : disjointBlockSet
  state : chainSyncState
  deriving DecidableEq, Repr

/-- From `chain_sync.go`: `newChainSync`. -/
def newChainSync : chainSync :=
  { workQueue := [], resultQueue := [], peerState := [], nextWorker := 0, workers := [],
    readyBlocks := [], pendingBlocks := newDisjointBlockSet, state := bootstrap }

/-- From `chain_sync.go`: `setPeerHead`.  The entry is written first, then its state is
sent on `workQueue`; the result is `none` when the queue is full, where the send blocks
until the driver has taken an entry. -/
def chainSync.setPeerHead (cs : chainSync) (p : peer.ID) (hash : common.Hash)
    (number : Int) : Option chainSync :=
  let ps : Gossamer.peerState := { who := "", hash := hash, number := number }
  let cs1 := { cs with peerState := Map.set cs.peerState p ps }
  if cs1.workQueue.length < queueCapacity then
    some { cs1 with workQueue := cs1.workQueue ++ [ps] }
  else none

/-- From `chain_sync.go`: `determineSyncPeers`, every key of the peer-state table. -/
def chainSync.determineSyncPeers (cs : chainSync) (_req : BlockRequestMessage) :
    List peer.ID :=
  Map.keys cs.peerState

/-- From `chain_sync.go`: `validateResponse`.  The body is `return nil`: the state is
left as it is and no error is returned. -/
def chainSync.validateResponse (cs : chainSync) (_resp : Option BlockResponseMessage) :
    chainSync × Option SyncError :=
  (cs, none)

/-- What a call of `doSync` leaves: the state, the returned `*workerError`, and the
requests it made on the network. -/
structure doSyncResult where
  cs : chainSync
  err : Option workerError
  requested : List (peer.ID × BlockRequestMessage)

/-- From `chain_sync.go`: `doSync`.  The loop over the peers ends in its first round, by
`return` or by `break`; without peers `resp` stays nil and `who` empty. -/
def chainSync.doSync (net : Network) (cs : chainSync) (req : BlockRequestMessage) :
    doSyncResult :=
  match cs.determineSyncPeers req with
  | [] =>
    match cs.validateResponse none with
    | (cs1, some err) => { cs := cs1, err := some { err := err, who := "" }, requested := [] }
    | (cs1, none) => { cs := cs1, err := none, requested := [] }
  | p :: _ =>
    match net.DoBlockRequest p req with
    | .error err => { cs := cs, err := some { err := err, who := p }, requested := [(p, req)] }
    | .ok resp =>
      match cs.validateResponse resp with
      | (cs1, some err) =>
        { cs := cs1, err := some { err := err, who := p }, requested := [(p, req)] }
      | (cs1, none) => { cs := cs1, err := none, requested := [(p, req)] }

/-! ## Routing of ready blocks -/

/-- Modelled from the spec: a pending block as the block data that is sent on the ready
queue when it is drained. -/
def pendingBlock.toBlockData (b : pendingBlock) : types.BlockData :=
  { Hash := b.hash, Header := b.header, Body := b.body, Justification := none }

/-- Modelled from the spec: whether a pending entry is a complete block (header and body
known) whose parent is `parent`; only such a descendant can be drained. -/
def isReadyChildOf (parent : common.Hash) (e : common.Hash × pendingBlock) : Bool :=
  match e.2.header, e.2.body with
  | some header, some _ => decide (header.ParentHash = parent)
  | _, _ => false

/-- Modelled from the spec: the drain of `handleReadyBlock` (section 4.6), breadth first
over the pending entries below the hashes of `frontier`: the
complete children of the first hash leave `blocks` and join the end of the frontier.
Returns the drained blocks in order and the entries that stay.  Each round takes one
hash off the frontier, so `frontier.length + blocks.length` rounds are enough. -/
def drainDescendants : Nat → List common.Hash → List (common.Hash × pendingBlock) →
    List types.BlockData × List (common.Hash × pendingBlock)
  | 0, _, blocks => ([], blocks)
  | _ + 1, [], blocks => ([], blocks)
  | fuel + 1, parent :: frontier, blocks =>
    let children := blocks.filter (isReadyChildOf parent)
    let others := blocks.filter (fun e => !isReadyChildOf parent e)
    let later := drainDescendants fuel (frontier ++ children.map (fun e => e.2.hash)) others
    (children.map (fun e => e.2.toBlockData) ++ later.1, later.2)

/-- Modelled from the spec: whether the parent hash is locally known (sections 3 and
4.6): the block store has it, or a block with that hash was sent on the ready queue
before. -/
def parentKnown (bs : BlockState) (ready : List types.BlockData) (parent : common.Hash) :
    Bool :=
  (match bs.HasHeader parent with
    | .ok true => true
    | _ => false) || ready.any (fun a => decide (a.Hash = parent))

/-- Modelled from the spec: `handleReadyBlock`, which `src/` holds only the test of
(`TestHandleReadyBlock`).  Section 4.6: if the parent hash of the header is locally known
(in the block store, or the hash of a block enqueued earlier, section 3) the block is
pushed on the ready queue and the pending descendants whose parent is thereby known are
drained after it, breadth first, and leave the pending set; else the block is added to
the pending set.  Block data without a header has no parent hash to read: no result. -/
def handleReadyBlock (bs : BlockState) (hashOf : types.Header → common.Hash)
    (bd : types.BlockData) (pending : disjointBlockSet) (ready : List types.BlockData) :
    Option (disjointBlockSet × List types.BlockData) :=
  match bd.Header with
  | none => none
  | some header =>
    if parentKnown bs ready header.ParentHash then
      let drained := drainDescendants (1 + pending.blocks.length) [bd.Hash] pending.blocks
      some ({ blocks := drained.2 }, ready ++ bd :: drained.1)
    else
      some (pending.addBlock hashOf { Header := header, Body := bd.Body }, ready)

/-- One step of the engine that can touch the ready queue: a `doSync` call, or the
routing of one block. -/
inductive engineOp where
  | doSync (net : Network) (req : BlockRequestMessage)
  | handleReadyBlock (bd : types.BlockData)

/-- The state after one step; `none` when the step has no result. -/
def engineStep (bs : BlockState) (hashOf : types.Header → common.Hash) (cs : chainSync) :
    engineOp → Option chainSync
  | .doSync net req => some (cs.doSync net req).cs
  | .handleReadyBlock bd =>
    (handleReadyBlock bs hashOf bd cs.pendingBlocks cs.readyBlocks).map
      (fun r => { cs with pendingBlocks := r.1, readyBlocks := r.2 })

/-- The state after a sequence of steps. -/
def engineRun (bs : BlockState) (hashOf : types.Header → common.Hash) :
    chainSync → List engineOp → Option chainSync
  | cs, [] => some cs
  | cs, op :: ops =>
    match engineStep bs hashOf cs op with
    | none => none
    | some cs1 => engineRun bs hashOf cs1 ops

/-- The ordering contract of the ready queue: the parent of every block sent is in the
block store or is the hash of a block sent before it. -/
def parentFirst (bs : BlockState) (sent : List types.BlockData) : Prop :=
  ∀ (before : List types.BlockData) (b : types.BlockData) (after : List types.BlockData),
    sent = before ++ b :: after →
    ∃ header, b.Header = some header ∧
      (bs.HasHeader header.ParentHash = .ok true ∨
        ∃ a ∈ before, a.Hash = header.ParentHash)

/-! ## chain_sync.go: the driver -/

/-- How a call ends: with a result, in a nil pointer dereference (a panic), or blocked on
a channel that nobody can serve. -/
inductive Outcome (α : Type) where
  | done (a : α)
  | nilDereference
  | blocked
  deriving DecidableEq, Repr

/-- The Go pair `(*worker, error)` that the work handlers return. -/
structure workerOrError where
  worker : Option worker
  err : Option SyncError
  deriving DecidableEq, Repr

/-- The value `&worker{}`: every field zero, both numbers nil. -/
def emptyWorker : worker :=
  { id := 0, startHash := 0, startNumber := none, targetHash := 0, targetNumber := none,
    requestData := 0, direction := 0, duration := 0, err := none }

/-- The value `&BlockRequestMessage{}` that `dispatchWorker` sends. -/
def emptyRequest : BlockRequestMessage :=
  { RequestedData := 0, StartingBlock := none, EndBlockHash := none, Direction := 0,
    Max := none }

/-- The loop of `hasCurrentWorker` over the workers table: true at the first worker whose
target number is at least `number`; the comparison dereferences a nil target number. -/
def hasCurrentWorkerLoop : List (Nat × worker) → Int → Outcome Bool
  | [], _ => .done false
  | (_, w) :: rest, number =>
    match w.targetNumber with
    | none => .nilDereference
    | some target => if target ≥ number then .done true else hasCurrentWorkerLoop rest number

/-- From `chain_sync.go`: `hasCurrentWorker`. -/
def chainSync.hasCurrentWorker (cs : chainSync) (ps : Gossamer.peerState) : Outcome Bool :=
  match hasCurrentWorkerLoop cs.workers ps.number with
  | .done true => .done true
  | .done false =>
    if cs.state = bootstrap then .done (decide (cs.workers.length ≠ 0)) else .done false
  | .nilDereference => .nilDereference
  | .blocked => .blocked

/-- What a call of `handleWork` leaves: the state, the returned error, and the worker it
started `dispatchWorker` for in a goroutine of its own, if any. -/
structure handleWorkResult where
  cs : chainSync
  err : Option SyncError
  dispatched : Option worker
  deriving DecidableEq, Repr

/-- From `chain_sync.go`: `handleWork`; `hashOf` is `(*types.Header).Hash`. -/
def chainSync.handleWork (bs : BlockState) (hashOf : types.Header → common.Hash)
    (cs : chainSync) (ps : Gossamer.peerState) : Outcome handleWorkResult :=
  match bs.BestBlockHeader with
  | .error err => .done { cs := cs, err := some err, dispatched := none }
  | .ok head =>
    if ps.number ≤ head.Number then
      match bs.GetHashByNumber ps.number with
      | .error err => .done { cs := cs, err := some err, dispatched := none }
      | .ok hash =>
        if hash = ps.hash then .done { cs := cs, err := none, dispatched := none }
        else
          match bs.GetHighestFinalisedHeader with
          | .error err => .done { cs := cs, err := some err, dispatched := none }
          | .ok fin =>
            if fin.Number ≥ ps.number then
              .done { cs := { cs with peerState := Map.delete cs.peerState ps.who },
                      err := none, dispatched := none }
            else .done { cs := cs, err := none, dispatched := none }
    else
      let cs1 := { cs with
        pendingBlocks := cs.pendingBlocks.addHashAndNumber ps.hash ps.number }
      if cs1.workers.length > MAX_WORKERS then
        .done { cs := cs1, err := none, dispatched := none }
      else
        match cs1.hasCurrentWorker ps with
        | .nilDereference => .nilDereference
        | .blocked => .blocked
        | .done true => .done { cs := cs1, err := none, dispatched := none }
        | .done false =>
          .done { cs := cs1, err := none,
                  dispatched := some
                    { id := cs1.nextWorker, startHash := hashOf head,
                      startNumber := some head.Number, targetHash := ps.hash,
                      targetNumber := some ps.number, requestData := 0,
                      direction := DIR_ASCENDING, duration := 0, err := none } }

/-- The conversion `int(x.Int64())` of a non-negative `*big.Int`: its low 64 bits read as
a signed number. -/
def int64OfAbs (n : Nat) : Int :=
  if n % 2 ^ 64 < 2 ^ 63 then ((n % 2 ^ 64 : Nat) : Int)
  else ((n % 2 ^ 64 : Nat) : Int) - 2 ^ 64

/-- From `chain_sync.go`: `numRequests` in `dispatchWorker`, for the distance `numBlocks`
between start and target. -/
def dispatchNumRequests (numBlocks : Int) : Int :=
  if numBlocks < (MAX_RESPONSE_SIZE : Int) then 1 else numBlocks / (MAX_RESPONSE_SIZE : Int)

/-- What the loop of `dispatchWorker` leaves: the state, the first `workerError`, and the
requests made on the network. -/
structure dispatchLoopResult where
  cs : chainSync
  err : Option workerError
  requested : List (peer.ID × BlockRequestMessage)
  deriving DecidableEq, Repr

/-- The loop of `dispatchWorker`: `remaining` more calls of `doSync`, the call number `i`
against the network as it answers then, `nets i`; the first error ends the loop. -/
def dispatchLoop (nets : Nat → Network) : Nat → Nat → chainSync → dispatchLoopResult
  | 0, _, cs => { cs := cs, err := none, requested := [] }
  | remaining + 1, i, cs =>
    let r := cs.doSync (nets i) emptyRequest
    match r.err with
    | some err => { cs := r.cs, err := some err, requested := r.requested }
    | none =>
      let later := dispatchLoop nets remaining (i + 1) r.cs
      { cs := later.cs, err := later.err, requested := r.requested ++ later.requested }

/-- What a call of `dispatchWorker` leaves: the state, with the worker on the result
queue, and the requests made on the network. -/
structure dispatchWorkerResult where
  cs : chainSync
  requested : List (peer.ID × BlockRequestMessage)
  deriving DecidableEq, Repr

/-- From `chain_sync.go`: `dispatchWorker`.  The subtraction dereferences both numbers
before the deferred send is set up; `elapsed` is the measured duration; the send on the
result queue blocks while the queue is full. -/
def chainSync.dispatchWorker (nets : Nat → Network) (elapsed : Nat) (cs : chainSync)
    (w : worker) : Outcome dispatchWorkerResult :=
  match w.targetNumber, w.startNumber with
  | some target, some start =>
    let numBlocks := int64OfAbs (target - start).natAbs
    let numRequests := dispatchNumRequests numBlocks
    let r := dispatchLoop nets numRequests.toNat 0 cs
    let w1 : worker :=
      { w with
        err := (match r.err with
          | some err => some err
          | none => w.err)
        duration := elapsed }
    if r.cs.resultQueue.length < queueCapacity then
      .done { cs := { r.cs with resultQueue := r.cs.resultQueue ++ [w1] },
              requested := r.requested }
    else .blocked
  | _, _ => .nilDereference

/-- The driver with the goroutines it has started: `running` are the workers that
`handleWork` started `dispatchWorker` for and that have not yet run to their end. -/
structure driver where
  cs : chainSync
  running : List worker
  deriving DecidableEq, Repr

/-- The driver as `newChainSync` and `start` leave it. -/
def newDriver : driver := { cs := newChainSync, running := [] }

/-- The events of the engine: a call of `setPeerHead` from the service, the three cases
of the `select` in `sync` (a peer state from the work queue, with the block state as it
is then; a worker from the result queue; a tick), and the end of the `dispatchWorker`
goroutine number `i` of `running`. -/
inductive driverOp where
  | setPeerHead (p : peer.ID) (hash : common.Hash) (number : Int)
  | work (bs : BlockState)
  | result (nets : Nat → Network) (elapsed : Nat)
  | tick
  | finish (i : Nat) (nets : Nat → Network) (elapsed : Nat)

/-- From `chain_sync.go`: the case `ps := <-cs.workQueue` of `sync`. -/
def driver.work (bs : BlockState) (hashOf : types.Header → common.Hash) (d : driver) :
    Outcome driver :=
  match d.cs.workQueue with
  | [] => .blocked
  | ps :: rest =>
    match chainSync.handleWork bs hashOf { d.cs with workQueue := rest } ps with
    | .done r =>
      .done { cs := r.cs
              running := match r.dispatched with
                | some w => d.running ++ [w]
                | none => d.running }
    | .nilDereference => .nilDereference
    | .blocked => .blocked

/-- From `chain_sync.go`: the case `res := <-cs.resultQueue` of `sync`.  After a failed
worker the driver itself calls `dispatchWorker` on `&worker{}`. -/
def driver.result (nets : Nat → Network) (elapsed : Nat) (d : driver) : Outcome driver :=
  match d.cs.resultQueue with
  | [] => .blocked
  | res :: rest =>
    let cs1 := { d.cs with resultQueue := rest, workers := Map.delete d.cs.workers res.id }
    match res.err with
    | none => .done { d with cs := cs1 }
    | some _ =>
      match cs1.dispatchWorker nets elapsed emptyWorker with
      | .done r => .done { d with cs := r.cs }
      | .nilDereference => .nilDereference
      | .blocked => .blocked

/-- The end of a `dispatchWorker` goroutine started by `handleWork`. -/
def driver.finish (i : Nat) (nets : Nat → Network) (elapsed : Nat) (d : driver) :
    Outcome driver :=
  match d.running.get? i with
  | none => .blocked
  | some w =>
    match d.cs.dispatchWorker nets elapsed w with
    | .done r => .done { cs := r.cs, running := d.running.eraseIdx i }
    | .nilDereference => .nilDereference
    | .blocked => .blocked

/-- One event of the engine. -/
def driver.step (hashOf : types.Header → common.Hash) (d : driver) : driverOp → Outcome driver
  | .setPeerHead p hash number =>
    match d.cs.setPeerHead p hash number with
    | some cs1 => .done { d with cs := cs1 }
    | none => .blocked
  | .work bs => d.work bs hashOf
  | .result nets elapsed => d.result nets elapsed
  | .tick => .done d
  | .finish i nets elapsed => d.finish i nets elapsed

/-- A sequence of events; it ends where an event has no result. -/
def driver.run (hashOf : types.Header → common.Hash) : driver → List driverOp → Outcome driver
  | d, [] => .done d
  | d, op :: ops =>
    match d.step hashOf op with
    | .done d1 => driver.run hashOf d1 ops
    | .nilDereference => .nilDereference
    | .blocked => .blocked

/-! ## bootstrap_syncer.go and tip_syncer.go -/

/-- From `bootstrap_syncer.go`: `handleNewPeerState` of `bootstrapSyncer`, whose only
field is the block state. -/
def bootstrapSyncer.handleNewPeerState (bs : BlockState) (ps : peerState) : workerOrError :=
  match bs.BestBlockHeader with
  | .error err => { worker := none, err := some err }
  | .ok head =>
    if ps.number ≤ head.Number then { worker := none, err := none }
    else
      { worker := some
          { id := 0, startHash := common.EmptyHash, startNumber := some (head.Number + 1),
            targetHash := ps.hash, targetNumber := some ps.number,
            requestData := bootstrapRequestData, direction := DIR_ASCENDING,
            duration := 0, err := none }
        err := none }

/-- From `bootstrap_syncer.go`: `handleWorkerResult` of `bootstrapSyncer`; the comparison
dereferences the target number of the result. -/
def bootstrapSyncer.handleWorkerResult (bs : BlockState) (res : worker) :
    Outcome workerOrError :=
  match res.err with
  | none => .done { worker := none, err := none }
  | some _ =>
    match bs.BestBlockHeader with
    | .error err => .done { worker := none, err := some err }
    | .ok head =>
      match res.targetNumber with
      | none => .nilDereference
      | some target =>
        if target ≤ head.Number then .done { worker := none, err := none }
        else
          .done
            { worker := some
                { id := 0, startHash := common.EmptyHash,
                  startNumber := some (head.Number + 1), targetHash := res.targetHash,
                  targetNumber := some target, requestData := res.requestData,
                  direction := res.direction, duration := 0, err := none }
              err := none }

/-- From `bootstrap_syncer.go`: `hasCurrentWorker` of `bootstrapSyncer`. -/
def bootstrapSyncer.hasCurrentWorker (_w : worker) (workers : List (Nat × worker)) : Bool :=
  decide (workers.length ≠ 0)

/-- From `bootstrap_syncer.go`: `handleTick` of `bootstrapSyncer`. -/
def bootstrapSyncer.handleTick : workerOrError := { worker := none, err := none }

/-- From `tip_syncer.go`: `handleNewPeerState` of `tipSyncer`. -/
def tipSyncer.handleNewPeerState (_ps : peerState) : workerOrError :=
  { worker := none, err := none }

/-- From `tip_syncer.go`: `handleWorkerResult` of `tipSyncer`. -/
def tipSyncer.handleWorkerResult (_res : worker) : workerOrError :=
  { worker := none, err := none }

/-- From `tip_syncer.go`: `hasCurrentWorker` of `tipSyncer`. -/
def tipSyncer.hasCurrentWorker (_w : worker) (_workers : List (Nat × worker)) : Bool :=
  false

/-- Modelled from the spec: `size` of the pending set, which `tip_syncer.go` calls and
`src/` does not define (section 4.1). -/
def disjointBlockSet.size (s : disjointBlockSet) : Nat := s.blocks.length

/-- Modelled from the spec: `getBlocks` of the pending set, which `tip_syncer.go` calls
and `src/` does not define (section 4.1): a snapshot of the entries, in the iteration
order of the map. -/
def disjointBlockSet.getBlocks (s : disjointBlockSet) : List pendingBlock :=
  s.blocks.map Prod.snd

/-- The loop of `handleTick` of `tipSyncer` over the pending blocks: a worker for the
first block without header (case 1) or without body (case 2); a complete block (case 3)
is passed over. -/
def tipSyncer.handleTickLoop : List pendingBlock → workerOrError
  | [] => { worker := none, err := none }
  | block :: rest =>
    match block.header with
    | none =>
      { worker := some { emptyWorker with startHash := block.hash, targetHash := block.hash }
        err := none }
    | some _ =>
      match block.body with
      | none =>
        { worker := some
            { emptyWorker with
              startHash := block.hash, targetHash := block.hash,
              requestData := RequestedDataBody }
          err := none }
      | some _ => tipSyncer.handleTickLoop rest

/-- From `tip_syncer.go`: `handleTick` of `tipSyncer`, on its pending set. -/
def tipSyncer.handleTick (pendingBlocks : disjointBlockSet) : workerOrError :=
  if pendingBlocks.size = 0 then { worker := none, err := none }
  else tipSyncer.handleTickLoop pendingBlocks.getBlocks

/-- The worker direction invariant of section 3: an ascending worker has its target at or
above its start, a descending one at or below. -/
def directionInvariant (w : worker) : Prop :=
  ∀ start target, w.startNumber = some start → w.targetNumber = some target →
    (w.direction = DIR_ASCENDING → target ≥ start) ∧
    (w.direction = DIR_DESCENDING → start ≥ target)

instance (w : worker) : Decidable (directionInvariant w) :=
  match hs : w.startNumber, ht : w.targetNumber with
  | some start, some target =>
    if h : (w.direction = DIR_ASCENDING → target ≥ start) ∧
        (w.direction = DIR_DESCENDING → start ≥ target) then
      isTrue (by
        intro s t hs1 ht1
        rw [hs] at hs1; rw [ht] at ht1
        injection hs1 with hs1; injection ht1 with ht1
        subst hs1; subst ht1
        exact h)
    else isFalse (fun hinv => h (hinv start target hs ht))
  | none, _ => isTrue (by intro s t hs1; rw [hs] at hs1; cases hs1)
  | some _, none => isTrue (by intro s t _ ht1; rw [ht] at ht1; cases ht1)

/-! ## The pending set as a state machine -/

/-- The five methods of `DisjointBlockSet` that change the set. -/
inductive pendingOp where
  | addHashAndNumber (hash : common.Hash) (number : Int)
  | addHeader (header : types.Header)
  | addBlock (block : types.Block)
  | removeBlock (hash : common.Hash)
  | removeLowerBlocks (num : Int)
  deriving DecidableEq, Repr

/-- One method call on the pending set. -/
def disjointBlockSet.apply (hashOf : types.Header → common.Hash) (s : disjointBlockSet) :
    pendingOp → disjointBlockSet
  | .addHashAndNumber hash number => s.addHashAndNumber hash number
  | .addHeader header => s.addHeader hashOf header
  | .addBlock block => s.addBlock hashOf block
  | .removeBlock hash => s.removeBlock hash
  | .removeLowerBlocks num => s.removeLowerBlocks num

/-- A sequence of method calls on the pending set, first call first. -/
def disjointBlockSet.run (hashOf : types.Header → common.Hash) :
    disjointBlockSet → List pendingOp → disjointBlockSet
  | s, [] => s
  | s, op :: ops => disjointBlockSet.run hashOf (s.apply hashOf op) ops

/-- The invariant of section 3 on one entry of the pending set: it is stored under its own
hash, and a header it has hashes to that hash. -/
def entryConsistent (hashOf : types.Header → common.Hash) (e : common.Hash × pendingBlock) :
    Prop :=
  e.2.hash = e.1 ∧ ∀ header, e.2.header = some header → hashOf header = e.2.hash

/-- Whether the request data asks for the field of the given bit (1 header, 2 body,
4 justification). -/
def asksFor (requestData bit : Nat) : Prop := requestData / bit % 2 = 1

instance (requestData bit : Nat) : Decidable (asksFor requestData bit) := by
  unfold asksFor; exact inferInstance

/-- Every entry of a pending set satisfies the invariant. -/
def pendingConsistent (hashOf : types.Header → common.Hash) (s : disjointBlockSet) : Prop :=
  ∀ e ∈ s.blocks, entryConsistent hashOf e

/-- The requests of `count` calls of `doSync` from call number `i` on. -/
def doSyncRequests (nets : Nat → Network) (cs : chainSync) :
    Nat → Nat → List (peer.ID × BlockRequestMessage)
  | 0, _ => []
  | count + 1, i =>
    (cs.doSync (nets i) emptyRequest).requested ++ doSyncRequests nets cs count (i + 1)

/-! ## Values of the tests in chain_sync_test.go -/

/-- A stand-in for `(*types.Header).Hash` in the tests: one to one, never the empty hash. -/
def testHeaderHash (header : types.Header) : common.Hash :=
  Nat.pair header.ParentHash header.Number.toNat + 1

/-- A header with a body, as block data under the hash of the header. -/
def testBlockData (parent : common.Hash) (number : Int) : types.BlockData :=
  { Hash := testHeaderHash { ParentHash := parent, Number := number }
    Header := some { ParentHash := parent, Number := number }
    Body := some { bytes := [] }
    Justification := none }

/-- The block state of `newTestChainSync`: best block 0, and only the empty hash
known as a parent. -/
def testBlockState : BlockState :=
  { BestBlockHeader := .ok { ParentHash := 0, Number := 0 }
    HasHeader := fun h => .ok (decide (h = 0))
    GetHashByNumber := fun _ => .ok 0
    GetHighestFinalisedHeader := .ok { ParentHash := 0, Number := 0 } }

/-- A network that answers every request with `resp` and no error. -/
def testNetwork (resp : Option BlockResponseMessage) : Network :=
  { DoBlockRequest := fun _ _ => .ok resp }

/-- The request of `TestChainSync_doSync`, in the given direction. -/
def testRequest (direction : Nat) : BlockRequestMessage :=
  { RequestedData := bootstrapRequestData, StartingBlock := some (.number 1),
    EndBlockHash := none, Direction := direction, Max := some 1 }

/-- The engine of `TestChainSync_doSync` once the peer "noot" is known. -/
def testChainSyncWithPeer : chainSync :=
  { newChainSync with peerState := [("noot", { who := "", hash := 0, number := 100 })] }

/-- Block 1 of `TestHandleReadyBlock`, on the empty parent hash. -/
def testBlock1 : types.BlockData := testBlockData 0 1

/-- Block 2 of `TestHandleReadyBlock`, on top of block 1. -/
def testBlock2 : types.BlockData := testBlockData testBlock1.Hash 2

/-- Block 3 of `TestHandleReadyBlock`, on top of block 2. -/
def testBlock3 : types.BlockData := testBlockData testBlock2.Hash 3

/-- The block 2 of `TestHandleReadyBlock` that is on another parent. -/
def testBlock2NotDescendant : types.BlockData := testBlockData 0xff 2

/-- The engine of `TestHandleReadyBlock`: blocks 2, 3 and the other block 2 are
pending. -/
def testChainSyncPending : chainSync :=
  { newChainSync with
    pendingBlocks :=
      ((newDisjointBlockSet.addBlock testHeaderHash
          { Header := { ParentHash := testBlock1.Hash, Number := 2 }, Body := some { bytes := [] } }
        ).addBlock testHeaderHash
          { Header := { ParentHash := testBlock2.Hash, Number := 3 }, Body := some { bytes := [] } }
        ).addBlock testHeaderHash
          { Header := { ParentHash := 0xff, Number := 2 }, Body := some { bytes := [] } } }

/-- The engine of `TestHandleReadyBlock` after block 1 was routed: blocks 1, 2 and 3 were
sent, the other block 2 is still pending. -/
def testChainSyncDrained : chainSync :=
  { newChainSync with
    pendingBlocks := { blocks := [(testBlock2NotDescendant.Hash,
      { hash := testBlock2NotDescendant.Hash, number := 2,
        header := testBlock2NotDescendant.Header, body := some { bytes := [] } })] }
    readyBlocks := [testBlock1, testBlock2, testBlock3] }

/-- One block with header, body and justification: a chain of one block that carries
every field `bootstrapRequestData` asks for. -/
def testFullResponse : BlockResponseMessage :=
  { BlockData := [{ testBlockData 0 1 with Justification := some [] }] }

/-- The response of `TestChainSync_doSync` to the descending request: block 3, then its
parent block 2. -/
def testDescendingResponse : BlockResponseMessage :=
  { BlockData := [testBlockData (testBlockData 0 2).Hash 3, testBlockData 0 2] }

/-- The first response of `TestChainSync_validateResponse`: blocks 1 and 2, the second
with an empty parent hash. -/
def testBrokenChainResponse : BlockResponseMessage :=
  { BlockData := [testBlockData 0 1, testBlockData 0 2] }

/-- The block state of the later cases of `TestChainSync_SetPeerHead`: best block 1000,
the given highest finalised number, and the given hash for every number. -/
def testBlockStateAt1000 (finalised : Int) (hash : common.Hash) : BlockState :=
  { BestBlockHeader := .ok { ParentHash := 0, Number := 1000 }
    HasHeader := fun _ => .ok true
    GetHashByNumber := fun _ => .ok hash
    GetHighestFinalisedHeader := .ok { ParentHash := 0, Number := finalised } }

/-- The peer state that `setPeerHead` stores and queues for the head `(hash, number)`. -/
def testPeerState (hash : common.Hash) (number : Int) : peerState :=
  { who := "", hash := hash, number := number }

/-- The engine after `setPeerHead("noot", 0xa0b, number)` on the engine as created. -/
def testChainSyncAfterSetPeerHead (number : Int) : chainSync :=
  { newChainSync with
    peerState := [("noot", testPeerState 0xa0b number)]
    workQueue := [testPeerState 0xa0b number] }

/-- The worker that `handleWork` dispatches for the peer head `(0xa0b, 1000)` on the local
head of `testBlockState`. -/
def testDispatchedWorker : worker :=
  { id := 0, startHash := testHeaderHash { ParentHash := 0, Number := 0 },
    startNumber := some 0, targetHash := 0xa0b, targetNumber := some 1000,
    requestData := 0, direction := DIR_ASCENDING, duration := 0, err := none }

/-- A failed descending worker from block 10 down to block 5. -/
def testFailedDescendingWorker : worker :=
  { id := 0, startHash := 0, startNumber := some 10, targetHash := 0, targetNumber := some 5,
    requestData := bootstrapRequestData, direction := DIR_DESCENDING, duration := 0,
    err := some { err := .errNilResponse, who := "noot" } }

/-- A block state whose best block has the given number. -/
def testBlockStateWithHead (number : Int) : BlockState :=
  { BestBlockHeader := .ok { ParentHash := 0, Number := number }
    HasHeader := fun _ => .ok true
    GetHashByNumber := fun _ => .ok 0
    GetHighestFinalisedHeader := .ok { ParentHash := 0, Number := 0 } }

/-- A pending set that knows one block by hash and number only. -/
def testPendingHashOnly : disjointBlockSet :=
  newDisjointBlockSet.addHashAndNumber 0xa0b 1000

/-- The engine after two peers ahead of the local head were handled: two workers run. -/
def testDriverTwoRunning : driver :=
  { cs := { newChainSync with
      peerState := [("a", testPeerState 1 1000), ("b", testPeerState 2 2000)]
      pendingBlocks := (newDisjointBlockSet.addHashAndNumber 1 1000).addHashAndNumber 2 2000 }
    running := [{ testDispatchedWorker with targetHash := 1 },
                { testDispatchedWorker with targetHash := 2, targetNumber := some 2000 }] }

/-- The worker of case 1 of `handleTick` for the block `0xa0b`. -/
def testHashOnlyWorker : worker :=
  { emptyWorker with startHash := 0xa0b, targetHash := 0xa0b }

/-- An engine in state `idle` whose workers table holds exactly `MAX_WORKERS` workers, each
with target number 10. -/
def testChainSyncFourWorkers : chainSync :=
  { newChainSync with
    state := idle
    workers := [(0, { testDispatchedWorker with id := 0, targetNumber := some 10 }),
                (1, { testDispatchedWorker with id := 1, targetNumber := some 10 }),
                (2, { testDispatchedWorker with id := 2, targetNumber := some 10 }),
                (3, { testDispatchedWorker with id := 3, targetNumber := some 10 })] }

/-- A header at block 2 on the unknown parent `0xff`. -/
def testForkHeader : types.Header := { ParentHash := 0xff, Number := 2 }

/-- A pending set that holds one complete block, header and body, on an unknown parent. -/
def testPendingComplete : disjointBlockSet :=
  newDisjointBlockSet.addBlock testHeaderHash
    { Header := testForkHeader, Body := some { bytes := [] } }

/-- The engine after the peer "a" at block 1000 was announced and handled on the local head
0 and its worker has come back with the error of the network. -/
def testDriverFailedResult : driver :=
  { cs := { newChainSync with
      peerState := [("a", testPeerState 1 1000)]
      pendingBlocks := newDisjointBlockSet.addHashAndNumber 1 1000
      resultQueue := [{ testDispatchedWorker with
        targetHash := 1, duration := 5,
        err := some { err := .errNilResponse, who := "a" } }] }
    running := [] }

/-- A network that fails every request with `errNilResponse`. -/
def testFailingNetwork : Network :=
  { DoBlockRequest := fun _ _ => .error .errNilResponse }

/-! ## pkg/trie/triedb/recorder.go -/

/-- From `recorder.go`: the five kinds of `trieAccess`; a byte slice is a list of
numbers. -/
inductive triedb.trieAccess where
  | encodedNodeAccess (hash : common.Hash) (encodedNode : List Nat)
  | valueAccess (hash : common.Hash) (value : List Nat) (fullKey : List Nat)
  | inlineValueAccess (fullKey : List Nat)
  | hashAccess (fullKey : List Nat)
  | nonExistingNodeAccess (fullKey : List Nat)
  deriving DecidableEq, Repr

/-- From `recorder.go`: `RecordedForKey`. -/
inductive triedb.RecordedForKey where
  | RecordedValue
  | RecordedHash
  deriving DecidableEq, Repr

/-- From `recorder.go`: `Record`. -/
structure triedb.Record where
  Hash : common.Hash
  Data : List Nat
  deriving DecidableEq, Repr

/-- From `recorder.go`: `RecordedNodesIterator`. -/
structure triedb.RecordedNodesIterator where
  nodes : List triedb.Record
  index : Int
  deriving DecidableEq, Repr

/-- From `recorder.go`: `NewRecordedNodesIterator`. -/
def triedb.NewRecordedNodesIterator (nodes : List triedb.Record) :
    triedb.RecordedNodesIterator :=
  { nodes := nodes, index := -1 }

/-- From `recorder.go`: `Next`.  The pointer `&r.nodes[i]` it returns is the position `i`,
`none` is nil; the second component is the iterator after the call. -/
def triedb.RecordedNodesIterator.Next (r : triedb.RecordedNodesIterator) :
    Option Int × triedb.RecordedNodesIterator :=
  if r.index < (r.nodes.length : Int) - 1 then
    (some (r.index + 1), { r with index := r.index + 1 })
  else (none, r)

/-- From `recorder.go`: `Peek`, which writes no field; the pointer `&r.nodes[i]` is the
position `i`, `none` is nil. -/
def triedb.RecordedNodesIterator.Peek (r : triedb.RecordedNodesIterator) : Option Int :=
  if r.index + 1 < (r.nodes.length : Int) - 1 then some (r.index + 1) else none

/-- From `recorder.go`: `Recorder`; the `btree.Map` from the key string to the status is an
association list. -/
structure triedb.Recorder where
  nodes : List triedb.Record
  recordedKeys : List (List Nat × triedb.RecordedForKey)
  deriving DecidableEq, Repr

/-- From `recorder.go`: `NewRecorder`. -/
def triedb.NewRecorder : triedb.Recorder := { nodes := [], recordedKeys := [] }

/-- From `recorder.go`: `record`. -/
def triedb.Recorder.record (r : triedb.Recorder) : triedb.trieAccess → triedb.Recorder
  | .encodedNodeAccess hash encodedNode =>
    { r with nodes := r.nodes ++ [{ Hash := hash, Data := encodedNode }] }
  | .valueAccess hash value fullKey =>
    { nodes := r.nodes ++ [{ Hash := hash, Data := value }]
      recordedKeys := Map.set r.recordedKeys fullKey .RecordedValue }
  | .inlineValueAccess fullKey =>
    { r with recordedKeys := Map.set r.recordedKeys fullKey .RecordedValue }
  | .hashAccess fullKey =>
    match Map.get r.recordedKeys fullKey with
    | some _ => r
    | none => { r with recordedKeys := Map.set r.recordedKeys fullKey .RecordedHash }
  | .nonExistingNodeAccess fullKey =>
    { r with recordedKeys := Map.set r.recordedKeys fullKey .RecordedValue }

/-- From `recorder.go`: `Drain`, the nodes returned and the recorder after the call. -/
def triedb.Recorder.Drain (r : triedb.Recorder) : List triedb.Record × triedb.Recorder :=
  (r.nodes, { nodes := [], recordedKeys := [] })

/-- A sequence of `record` calls, first call first. -/
def triedb.Recorder.recordAll (r : triedb.Recorder) :
    List triedb.trieAccess → triedb.Recorder
  | [] => r
  | access :: rest => triedb.Recorder.recordAll (r.record access) rest

/-! ## pkg/trie/triedb/proof/util_test.go -/

/-- From `util_test.go`: `MemoryDB`. -/
structure proof.MemoryDB where
  data : List (common.Hash × List Nat)
  hashedNullNode : common.Hash
  nullNodeData : List Nat
  deriving DecidableEq, Repr

/-- From `util_test.go`: `emplace`; `bytes.Equal` is equality of the byte lists. -/
def proof.MemoryDB.emplace (db : proof.MemoryDB) (key : common.Hash) (value : List Nat) :
    proof.MemoryDB :=
  if value = db.nullNodeData then db else { db with data := Map.set db.data key value }

/-- From `util_test.go`: `Get`; `newHash` is `common.NewHash`, which `src/` does not hold,
and `none` is the result `nil, nil`. -/
def proof.MemoryDB.Get (newHash : List Nat → common.Hash) (db : proof.MemoryDB)
    (key : List Nat) : Option (List Nat) :=
  if newHash key = db.hashedNullNode then some db.nullNodeData
  else Map.get db.data (newHash key)

/-- From `util_test.go`: `Put`. -/
def proof.MemoryDB.Put (newHash : List Nat → common.Hash) (db : proof.MemoryDB)
    (key : List Nat) (value : List Nat) : proof.MemoryDB :=
  db.emplace (newHash key) value

/-- From `util_test.go`: `Del`. -/
def proof.MemoryDB.Del (newHash : List Nat → common.Hash) (db : proof.MemoryDB)
    (key : List Nat) : proof.MemoryDB :=
  { db with data := Map.delete db.data (newHash key) }

/-! ## pkg/trie/triedb/triedb_iterator.go -/

/-- The two kinds of `codec.EncodedNode` that `NextEntry` tells apart, with what it reads
of them: the partial key, the children of a branch as references into the database, and
whether the branch has a value. -/
inductive codec.EncodedNode where
  | Leaf (PartialKey : List Nat)
  | Branch (PartialKey : List Nat) (Children : List (Option Nat)) (hasValue : Bool)
  deriving DecidableEq, Repr

/-- From `codec`: `GetPartialKey`. -/
def codec.EncodedNode.GetPartialKey : codec.EncodedNode → List Nat
  | .Leaf partialKey => partialKey
  | .Branch partialKey _ _ => partialKey

/-- The type `trie.Entry`. -/
structure trie.Entry where
  Key : List Nat
  Value : Option (List Nat)
  deriving DecidableEq, Repr

/-- What the iterator calls of `TrieDB`, which `src/` does not hold: `getNode` (`none` is
its error), `Get`, `getRootNode`, and `nibbles.NibblesToKeyLE` of the codec. -/
structure triedb.TrieDB where
  getNode : Nat → Option codec.EncodedNode
  Get : List Nat → Option (List Nat)
  getRootNode : Option codec.EncodedNode
  NibblesToKeyLE : List Nat → List Nat

/-- From `triedb_iterator.go`: `iteratorState`. -/
structure triedb.iteratorState where
  parentFullKey : List Nat
  node : codec.EncodedNode
  deriving DecidableEq, Repr

/-- From `triedb_iterator.go`: `fullKeyNibbles`. -/
def triedb.iteratorState.fullKeyNibbles (db : triedb.TrieDB) (s : triedb.iteratorState)
    (child : Option Nat) : List Nat :=
  match child with
  | some idx => (s.parentFullKey ++ s.node.GetPartialKey) ++ [idx % 256]
  | none => db.NibblesToKeyLE (s.parentFullKey ++ s.node.GetPartialKey)

/-- How a loop stands after the steps it was given: ended with a result, ended in a panic,
or still running. -/
inductive Steps (α : Type) where
  | done (a : α)
  | panicked
  | running
  deriving DecidableEq, Repr

/-- From `triedb_iterator.go`: `NewTrieDBIterator`, the node stack it starts with (its top
is the head of the list); `none` is its panic. -/
def triedb.NewTrieDBIterator (db : triedb.TrieDB) : Option (List triedb.iteratorState) :=
  match db.getRootNode with
  | none => none
  | some rootNode => some [{ parentFullKey := [], node := rootNode }]

/-- The inner loop of `NextEntry` over the children of a branch, from the last index down:
each child that is there is looked up and pushed; `none` is the panic on a failed
look-up.  `children` are the children with their indices, last index first. -/
def triedb.pushChildren (db : triedb.TrieDB) (currentState : triedb.iteratorState) :
    List (Nat × Option Nat) → List triedb.iteratorState → Option (List triedb.iteratorState)
  | [], stack => some stack
  | (_, none) :: more, stack => triedb.pushChildren db currentState more stack
  | (idx, some child) :: more, stack =>
    match db.getNode child with
    | none => none
    | some childNode =>
      triedb.pushChildren db currentState more
        ({ parentFullKey := currentState.fullKeyNibbles db (some idx), node := childNode }
          :: stack)

/-- From `triedb_iterator.go`: `NextEntry`, with at most `steps` rounds of its outer loop;
the entry returned (`none` is nil) and the node stack after the call. -/
def triedb.NextEntry (db : triedb.TrieDB) :
    Nat → List triedb.iteratorState → Steps (Option trie.Entry × List triedb.iteratorState)
  | _, [] => .done (none, [])
  | 0, _ :: _ => .running
  | steps + 1, currentState :: rest =>
    match currentState.node with
    | .Leaf _ =>
      .done (some { Key := currentState.fullKeyNibbles db none
                    Value := db.Get (currentState.fullKeyNibbles db none) }, rest)
    | .Branch _ children hasValue =>
      match triedb.pushChildren db currentState
          ((List.range children.length).zip children).reverse rest with
      | none => .panicked
      | some stack =>
        if hasValue then
          .done (some { Key := currentState.fullKeyNibbles db none
                        Value := db.Get (currentState.fullKeyNibbles db none) }, stack)
        else triedb.NextEntry db steps stack

/-- From `triedb_iterator.go`: `NextKey`; `none` is the nil key. -/
def triedb.NextKey (db : triedb.TrieDB) (steps : Nat) (stack : List triedb.iteratorState) :
    Steps (Option (List Nat) × List triedb.iteratorState) :=
  match triedb.NextEntry db steps stack with
  | .done (some entry, stack1) => .done (some entry.Key, stack1)
  | .done (none, stack1) => .done (none, stack1)
  | .panicked => .panicked
  | .running => .running

/-- The function `bytes.Compare`: -1, 0 or 1 by the lexicographic order of the bytes. -/
def bytesCompare : List Nat → List Nat → Int
  | [], [] => 0
  | [], _ :: _ => -1
  | _ :: _, [] => 1
  | a :: as, b :: bs => if a < b then -1 else if b < a then 1 else bytesCompare as bs

/-- From `triedb_iterator.go`: `Seek`, with at most `rounds` calls of `NextKey`, each with
`steps` rounds for its own loop; a nil key compares as the empty slice.  The result is the
node stack when the loop has ended, and `running` when it has not. -/
def triedb.Seek (db : triedb.TrieDB) (targetKey : List Nat) (steps : Nat) :
    Nat → List triedb.iteratorState → Steps (List triedb.iteratorState)
  | 0, _ => .running
  | rounds + 1, stack =>
    match triedb.NextKey db steps stack with
    | .done (key, stack1) =>
      if bytesCompare (key.getD []) targetKey < 0 then
        triedb.Seek db targetKey steps rounds stack1
      else .done stack1
    | .panicked => .panicked
    | .running => .running

/-! ## Values for the triedb package -/

/-- A record with the given hash. -/
def testRecord (hash : common.Hash) : triedb.Record := { Hash := hash, Data := [hash] }

/-- A stand-in for `common.NewHash`: the bytes read as a number in base 256. -/
def testNewHash (key : List Nat) : common.Hash :=
  key.foldl (fun acc b => acc * 256 + b % 256) 0

/-- A memory database whose null node is the byte 0 under the hash 99, and which holds the
value `[1, 2]` under the key `[7]`. -/
def testMemoryDB : proof.MemoryDB :=
  { data := [(testNewHash [7], [1, 2])], hashedNullNode := 99, nullNodeData := [0] }

/-- A trie database with one leaf as its root, whose key nibbles are `[1]`. -/
def testLeafTrieDB : triedb.TrieDB :=
  { getNode := fun _ => none
    Get := fun _ => some [42]
    getRootNode := some (.Leaf [1])
    NibblesToKeyLE := fun nibbles => nibbles }

/-- A trie database whose root is a branch without value over two leaves. -/
def testBranchTrieDB : triedb.TrieDB :=
  { getNode := fun child =>
      if child = 1 then some (.Leaf [3]) else if child = 2 then some (.Leaf [4]) else none
    Get := fun _ => some [42]
    getRootNode := some (.Branch [] [some 1, none, some 2] false)
    NibblesToKeyLE := fun nibbles => nibbles }

/-! # Properties -/

/-! ## Association lists -/

theorem Map.get_set_self {κ ν : Type} [DecidableEq κ] (m : List (κ × ν)) (k : κ) (v : ν) :
    Map.get (Map.set m k v) k = some v := by
  induction m with
  | nil => simp [Map.set, Map.get]
  | cons e rest ih =>
    obtain ⟨k0, v0⟩ := e
    by_cases h : k0 = k
    · simp [Map.set, Map.get, h]
    · simp [Map.set, Map.get, h, ih]

theorem Map.get_set_other {κ ν : Type} [DecidableEq κ] (m : List (κ × ν)) (k k' : κ) (v : ν)
    (hne : k' ≠ k) : Map.get (Map.set m k v) k' = Map.get m k' := by
  induction m with
  | nil =>
    have h : ¬ k = k' := fun e => hne e.symm
    simp [Map.set, Map.get, h]
  | cons e rest ih =>
    obtain ⟨k0, v0⟩ := e
    by_cases h : k0 = k
    · subst h
      have h2 : ¬ k0 = k' := fun e => hne e.symm
      simp [Map.set, Map.get, h2]
    · by_cases h3 : k0 = k'
      · subst h3
        simp [Map.set, Map.get, h]
      · simp [Map.set, Map.get, h, h3, ih]

/-! ## workerToRequests -/

/-- A worker with both numbers set and a consistent direction is expanded. -/
theorem workerToRequests_ok (w : worker) (start target : Int)
    (hs : w.startNumber = some start) (ht : w.targetNumber = some target)
    (hdir : ¬ ((w.direction = DIR_ASCENDING ∧ target < start) ∨
      (w.direction = DIR_DESCENDING ∧ target > start))) :
    workerToRequests w = .ok ((List.range (workerNumFull (target - start).natAbs + 1)).map
      (workerRequest w start (target - start).natAbs)) := by
  simp only [workerToRequests, hs, ht]
  rw [if_neg hdir]

/-! ## The ready queue -/

theorem length_filter_split {α : Type} (p : α → Bool) (l : List α) :
    (l.filter p).length + (l.filter (fun e => !p e)).length = l.length := by
  induction l with
  | nil => rfl
  | cons a l ih =>
    cases h : p a <;> simp [List.filter, h] <;> omega

/-- With `frontier.length + blocks.length` rounds the drain has come to its end: more
rounds change nothing. -/
theorem drainDescendants_fuel :
    ∀ (fuel : Nat) (frontier : List common.Hash) (blocks : List (common.Hash × pendingBlock)),
      frontier.length + blocks.length ≤ fuel →
      drainDescendants (fuel + 1) frontier blocks = drainDescendants fuel frontier blocks := by
  intro fuel
  induction fuel with
  | zero =>
    intro frontier blocks h
    have h1 : frontier = [] := List.length_eq_zero.mp (by omega)
    subst h1
    simp [drainDescendants]
  | succ fuel ih =>
    intro frontier blocks h
    cases frontier with
    | nil => simp [drainDescendants]
    | cons parent frontier =>
      have hsplit := length_filter_split (isReadyChildOf parent) blocks
      have hle : (frontier ++ (blocks.filter (isReadyChildOf parent)).map
          (fun e => e.2.hash)).length
          + (blocks.filter (fun e => !isReadyChildOf parent e)).length ≤ fuel := by
        simp only [List.length_append, List.length_map, List.length_cons] at h ⊢
        omega
      have := ih _ _ hle
      rw [drainDescendants, this]
      conv => rhs; rw [drainDescendants]

theorem parentFirst_nil (bs : BlockState) : parentFirst bs [] := by
  intro before b after h
  cases before <;> simp at h

/-- Sending one more block whose parent is known keeps the contract. -/
theorem parentFirst_snoc (bs : BlockState) (sent : List types.BlockData) (b : types.BlockData)
    (hsent : parentFirst bs sent)
    (hb : ∃ header, b.Header = some header ∧
      (bs.HasHeader header.ParentHash = .ok true ∨ ∃ a ∈ sent, a.Hash = header.ParentHash)) :
    parentFirst bs (sent ++ [b]) := by
  intro before c after h
  rcases List.append_eq_append_iff.mp h with ⟨mid, h1, h2⟩ | ⟨mid, h1, h2⟩
  · -- `before = sent ++ mid` and `[b] = mid ++ c :: after`
    cases mid with
    | nil =>
      simp at h1 h2
      obtain ⟨hbc, _⟩ := h2
      subst hbc
      subst h1
      exact hb
    | cons m mid =>
      simp at h2
  · -- `sent = before ++ mid` and `c :: after = mid ++ [b]`
    cases mid with
    | nil =>
      simp at h1 h2
      obtain ⟨hbc, _⟩ := h2
      subst hbc
      subst h1
      exact hb
    | cons m mid =>
      simp at h2
      obtain ⟨hcm, hafter⟩ := h2
      subst hcm
      exact hsent before c mid h1

/-- Sending blocks whose parents were all sent before keeps the contract. -/
theorem parentFirst_append (bs : BlockState) (out : List types.BlockData) :
    ∀ sent : List types.BlockData, parentFirst bs sent →
      (∀ b ∈ out, ∃ header, b.Header = some header ∧
        ∃ a ∈ sent, a.Hash = header.ParentHash) →
      parentFirst bs (sent ++ out) := by
  induction out with
  | nil => intro sent hsent _; simpa using hsent
  | cons b out ih =>
    intro sent hsent hout
    have hb := hout b (List.mem_cons_self b out)
    obtain ⟨header, hh, a, ha, hah⟩ := hb
    have h1 : parentFirst bs (sent ++ [b]) :=
      parentFirst_snoc bs sent b hsent ⟨header, hh, Or.inr ⟨a, ha, hah⟩⟩
    have h2 := ih (sent ++ [b]) h1 (by
      intro c hc
      obtain ⟨hd, hhd, a2, ha2, hah2⟩ := hout c (List.mem_cons_of_mem b hc)
      exact ⟨hd, hhd, a2, List.mem_append_left _ ha2, hah2⟩)
    simpa using h2

/-- A drained child carries a header whose parent is the hash it was drained for. -/
theorem isReadyChildOf_header (parent : common.Hash) (e : common.Hash × pendingBlock)
    (h : isReadyChildOf parent e = true) :
    ∃ header, e.2.toBlockData.Header = some header ∧ header.ParentHash = parent := by
  unfold isReadyChildOf at h
  cases hh : e.2.header with
  | none => simp [hh] at h
  | some header =>
    cases hb : e.2.body with
    | none => simp [hh, hb] at h
    | some body =>
      simp [hh, hb] at h
      exact ⟨header, by simp [pendingBlock.toBlockData, hh], h⟩

/-- Draining the descendants of blocks already sent keeps the contract. -/
theorem parentFirst_drainDescendants (bs : BlockState) :
    ∀ (fuel : Nat) (frontier : List common.Hash) (blocks : List (common.Hash × pendingBlock))
      (sent : List types.BlockData),
      parentFirst bs sent →
      (∀ h ∈ frontier, ∃ a ∈ sent, a.Hash = h) →
      parentFirst bs (sent ++ (drainDescendants fuel frontier blocks).1) := by
  intro fuel
  induction fuel with
  | zero =>
    intro frontier blocks sent hsent _
    simpa [drainDescendants] using hsent
  | succ fuel ih =>
    intro frontier blocks sent hsent hfr
    cases frontier with
    | nil => simpa [drainDescendants] using hsent
    | cons parent frontier =>
      simp only [drainDescendants]
      obtain ⟨p, hp, hpe⟩ := hfr parent (List.mem_cons_self _ _)
      have hout : parentFirst bs
          (sent ++ (blocks.filter (isReadyChildOf parent)).map (fun e => e.2.toBlockData)) := by
        apply parentFirst_append bs _ sent hsent
        intro b hb
        obtain ⟨e, he, heb⟩ := List.mem_map.mp hb
        have hchild := (List.mem_filter.mp he).2
        obtain ⟨header, hh, hpar⟩ := isReadyChildOf_header parent e hchild
        exact ⟨header, heb ▸ hh, p, hp, hpe.trans hpar.symm⟩
      have := ih (frontier ++ (blocks.filter (isReadyChildOf parent)).map (fun e => e.2.hash))
        (blocks.filter (fun e => !isReadyChildOf parent e)) _ hout (by
          intro h hmem
          rcases List.mem_append.mp hmem with hm | hm
          · obtain ⟨a, ha, hah⟩ := hfr h (List.mem_cons_of_mem _ hm)
            exact ⟨a, List.mem_append_left _ ha, hah⟩
          · obtain ⟨e, he, heh⟩ := List.mem_map.mp hm
            exact ⟨e.2.toBlockData, List.mem_append_right _ (List.mem_map.mpr ⟨e, he, rfl⟩),
              by simpa [pendingBlock.toBlockData] using heh⟩)
      simpa [List.append_assoc] using this

theorem parentKnown_true (bs : BlockState) (ready : List types.BlockData) (parent : common.Hash)
    (h : parentKnown bs ready parent = true) :
    bs.HasHeader parent = .ok true ∨ ∃ a ∈ ready, a.Hash = parent := by
  unfold parentKnown at h
  rcases Bool.or_eq_true _ _ ▸ h with h1 | h2
  · left
    revert h1
    cases bs.HasHeader parent with
    | error e => simp
    | ok v => cases v <;> simp
  · right
    obtain ⟨a, ha, hh⟩ := List.any_eq_true.mp h2
    exact ⟨a, ha, by simpa using hh⟩

/-- Routing one block keeps the contract. -/
theorem parentFirst_handleReadyBlock (bs : BlockState) (hashOf : types.Header → common.Hash)
    (bd : types.BlockData) (pending pending1 : disjointBlockSet)
    (ready ready1 : List types.BlockData) (hready : parentFirst bs ready)
    (h : handleReadyBlock bs hashOf bd pending ready = some (pending1, ready1)) :
    parentFirst bs ready1 := by
  unfold handleReadyBlock at h
  cases hh : bd.Header with
  | none => simp [hh] at h
  | some header =>
    simp only [hh] at h
    by_cases hk : parentKnown bs ready header.ParentHash = true
    · rw [if_pos hk] at h
      simp only [Option.some.injEq, Prod.mk.injEq] at h
      obtain ⟨_, hr⟩ := h
      subst hr
      have h1 : parentFirst bs (ready ++ [bd]) :=
        parentFirst_snoc bs ready bd hready ⟨header, hh, parentKnown_true bs ready _ hk⟩
      have h2 := parentFirst_drainDescendants bs (1 + pending.blocks.length) [bd.Hash]
        pending.blocks (ready ++ [bd]) h1 (by
          intro h hm
          simp at hm
          exact ⟨bd, by simp, hm.symm⟩)
      simpa [List.append_assoc] using h2
    · rw [if_neg hk] at h
      simp only [Option.some.injEq, Prod.mk.injEq] at h
      obtain ⟨_, hr⟩ := h
      subst hr
      exact hready

/-- The code of `doSync` never sends on the ready queue nor touches any other state. -/
theorem doSync_cs (net : Network) (cs : chainSync) (req : BlockRequestMessage) :
    (cs.doSync net req).cs = cs := by
  unfold chainSync.doSync chainSync.validateResponse
  cases cs.determineSyncPeers req with
  | nil => rfl
  | cons p ps =>
    simp only
    cases net.DoBlockRequest p req <;> rfl

theorem parentFirst_engineStep (bs : BlockState) (hashOf : types.Header → common.Hash)
    (cs cs1 : chainSync) (op : engineOp) (hcs : parentFirst bs cs.readyBlocks)
    (h : engineStep bs hashOf cs op = some cs1) : parentFirst bs cs1.readyBlocks := by
  cases op with
  | doSync net req =>
    simp only [engineStep, Option.some.injEq, doSync_cs] at h
    subst h
    exact hcs
  | handleReadyBlock bd =>
    simp only [engineStep] at h
    cases hr : handleReadyBlock bs hashOf bd cs.pendingBlocks cs.readyBlocks with
    | none => simp [hr] at h
    | some r =>
      simp only [hr, Option.map_some', Option.some.injEq] at h
      subst h
      exact parentFirst_handleReadyBlock bs hashOf bd cs.pendingBlocks r.1 cs.readyBlocks r.2
        hcs hr

theorem parentFirst_engineRun (bs : BlockState) (hashOf : types.Header → common.Hash)
    (ops : List engineOp) :
    ∀ cs cs1 : chainSync, parentFirst bs cs.readyBlocks →
      engineRun bs hashOf cs ops = some cs1 → parentFirst bs cs1.readyBlocks := by
  induction ops with
  | nil =>
    intro cs cs1 hcs h
    simp only [engineRun, Option.some.injEq] at h
    subst h
    exact hcs
  | cons op ops ih =>
    intro cs cs1 hcs h
    simp only [engineRun] at h
    cases hs : engineStep bs hashOf cs op with
    | none => simp [hs] at h
    | some cs2 =>
      simp only [hs] at h
      exact ih cs2 cs1 (parentFirst_engineStep bs hashOf cs cs2 op hcs hs) h

/-! ## handleWork, dispatchWorker and the driver -/

theorem Map.length_delete_le {κ ν : Type} [DecidableEq κ] (m : List (κ × ν)) (k : κ) :
    (Map.delete m k).length ≤ m.length := by
  unfold Map.delete
  exact List.length_filter_le _ m

theorem Map.get_delete_other {κ ν : Type} [DecidableEq κ] (m : List (κ × ν)) (k k' : κ)
    (hne : k' ≠ k) : Map.get (Map.delete m k) k' = Map.get m k' := by
  induction m with
  | nil => rfl
  | cons e rest ih =>
    obtain ⟨k0, v0⟩ := e
    simp only [Map.delete, List.filter_cons, ne_eq, decide_not] at ih ⊢
    by_cases h : k0 = k
    · subst h
      have h2 : ¬ k0 = k' := fun e => hne e.symm
      simp [Map.get, h2, ih]
    · by_cases h3 : k0 = k'
      · subst h3
        simp [Map.get, h]
      · simp [Map.get, h, h3, ih]

/-- The code of `setPeerHead` writes the peer-state table and the work queue only. -/
theorem setPeerHead_some (cs cs1 : chainSync) (p : peer.ID) (hash : common.Hash)
    (number : Int) (h : cs.setPeerHead p hash number = some cs1) :
    cs1 = { cs with
      peerState := Map.set cs.peerState p { who := "", hash := hash, number := number }
      workQueue := cs.workQueue ++ [{ who := "", hash := hash, number := number }] } := by
  unfold chainSync.setPeerHead at h
  simp only at h
  split at h
  · injection h with h
    exact h.symm
  · cases h

/-- The code of `handleWork` never writes the workers table. -/
theorem handleWork_workers (bs : BlockState) (hashOf : types.Header → common.Hash)
    (cs : chainSync) (ps : peerState) (r : handleWorkResult)
    (h : chainSync.handleWork bs hashOf cs ps = .done r) : r.cs.workers = cs.workers := by
  unfold chainSync.handleWork at h
  split at h
  · injection h with h; subst h; rfl
  · split at h
    · split at h
      · injection h with h; subst h; rfl
      · split at h
        · injection h with h; subst h; rfl
        · split at h
          · injection h with h; subst h; rfl
          · split at h <;> (injection h with h; subst h; rfl)
    · simp only at h
      split at h
      · injection h with h; subst h; rfl
      · split at h
        · cases h
        · cases h
        · injection h with h; subst h; rfl
        · injection h with h; subst h; rfl

/-- The loop of `dispatchWorker` leaves the state as it is. -/
theorem dispatchLoop_cs (nets : Nat → Network) :
    ∀ (remaining i : Nat) (cs : chainSync), (dispatchLoop nets remaining i cs).cs = cs := by
  intro remaining
  induction remaining with
  | zero => intro i cs; rfl
  | succ n ih =>
    intro i cs
    simp only [dispatchLoop]
    split
    · simp [doSync_cs]
    · simp [ih, doSync_cs]

/-- A finished `dispatchWorker` has changed the result queue only. -/
theorem dispatchWorker_done (nets : Nat → Network) (elapsed : Nat) (cs : chainSync)
    (w : worker) (r : dispatchWorkerResult)
    (h : cs.dispatchWorker nets elapsed w = .done r) :
    ∃ w1 : worker, r.cs = { cs with resultQueue := cs.resultQueue ++ [w1] } ∧ w1.id = w.id := by
  unfold chainSync.dispatchWorker at h
  split at h
  · simp only [dispatchLoop_cs] at h
    split at h
    · injection h with h
      subst h
      exact ⟨_, rfl, rfl⟩
    · cases h
  · cases h

/-- The driver's own call of `dispatchWorker` on `&worker{}` dereferences nil. -/
theorem dispatchWorker_emptyWorker (nets : Nat → Network) (elapsed : Nat) (cs : chainSync) :
    cs.dispatchWorker nets elapsed emptyWorker = .nilDereference := rfl

/-- No event of the engine adds an entry to the workers table. -/
theorem driver_step_workers (hashOf : types.Header → common.Hash) (d d1 : driver)
    (op : driverOp) (h : d.step hashOf op = .done d1) :
    d1.cs.workers.length ≤ d.cs.workers.length := by
  cases op with
  | setPeerHead p hash number =>
    simp only [driver.step] at h
    cases hs : d.cs.setPeerHead p hash number with
    | none => simp [hs] at h
    | some cs1 =>
      simp only [hs] at h
      injection h with h
      subst h
      rw [setPeerHead_some d.cs cs1 p hash number hs]
  | work bs =>
    simp only [driver.step, driver.work] at h
    split at h
    · cases h
    · rename_i ps rest hq
      split at h
      · rename_i r hr
        injection h with h
        subst h
        have := handleWork_workers bs hashOf _ ps r hr
        simp only at this ⊢
        rw [this]
      · cases h
      · cases h
  | result nets elapsed =>
    simp only [driver.step, driver.result] at h
    split at h
    · cases h
    · rename_i res rest hq
      split at h
      · injection h with h
        subst h
        exact Map.length_delete_le _ _
      · rw [dispatchWorker_emptyWorker] at h
        cases h
  | tick =>
    simp only [driver.step] at h
    injection h with h
    subst h
    exact Nat.le_refl _
  | finish i nets elapsed =>
    simp only [driver.step, driver.finish] at h
    split at h
    · cases h
    · rename_i w hw
      split at h
      · rename_i r hr
        injection h with h
        subst h
        obtain ⟨w1, hcs, _⟩ := dispatchWorker_done nets elapsed d.cs w r hr
        simp only [hcs]
        exact Nat.le_refl _
      · cases h
      · cases h

theorem driver_run_workers (hashOf : types.Header → common.Hash) (ops : List driverOp) :
    ∀ d d1 : driver, driver.run hashOf d ops = .done d1 →
      d1.cs.workers.length ≤ d.cs.workers.length := by
  induction ops with
  | nil =>
    intro d d1 h
    simp only [driver.run] at h
    injection h with h
    subst h
    exact Nat.le_refl _
  | cons op ops ih =>
    intro d d1 h
    simp only [driver.run] at h
    split at h
    · rename_i d2 hstep
      exact Nat.le_trans (ih d2 d1 h) (driver_step_workers hashOf d d2 op hstep)
    · cases h
    · cases h

/-- When the three queries of the block state succeed, `handleWork` returns no error. -/
theorem handleWork_no_error (bs : BlockState) (hashOf : types.Header → common.Hash)
    (cs : chainSync) (ps : peerState) (head fin : types.Header)
    (hhead : bs.BestBlockHeader = .ok head)
    (hhash : ∀ n, ∃ hash, bs.GetHashByNumber n = .ok hash)
    (hfin : bs.GetHighestFinalisedHeader = .ok fin)
    (r : handleWorkResult) (h : chainSync.handleWork bs hashOf cs ps = .done r) :
    r.err = none := by
  obtain ⟨hash, hh⟩ := hhash ps.number
  unfold chainSync.handleWork at h
  simp only [hhead, hh, hfin] at h
  split at h
  · split at h
    · injection h with h; subst h; rfl
    · split at h <;> (injection h with h; subst h; rfl)
  · split at h
    · injection h with h; subst h; rfl
    · split at h
      · cases h
      · cases h
      · injection h with h; subst h; rfl
      · injection h with h; subst h; rfl

/-- What `handleWork` does to the peer-state table: nothing, or `delete` of the key
`ps.who`. -/
theorem handleWork_peerState (bs : BlockState) (hashOf : types.Header → common.Hash)
    (cs : chainSync) (ps : peerState) (r : handleWorkResult)
    (h : chainSync.handleWork bs hashOf cs ps = .done r) :
    r.cs.peerState = cs.peerState ∨ r.cs.peerState = Map.delete cs.peerState ps.who := by
  unfold chainSync.handleWork at h
  split at h
  · injection h with h; subst h; exact Or.inl rfl
  · split at h
    · split at h
      · injection h with h; subst h; exact Or.inl rfl
      · split at h
        · injection h with h; subst h; exact Or.inl rfl
        · split at h
          · injection h with h; subst h; exact Or.inl rfl
          · split at h
            · injection h with h; subst h; exact Or.inr rfl
            · injection h with h; subst h; exact Or.inl rfl
    · simp only at h
      split at h
      · injection h with h; subst h; exact Or.inl rfl
      · split at h
        · cases h
        · cases h
        · injection h with h; subst h; exact Or.inl rfl
        · injection h with h; subst h; exact Or.inl rfl

/-- The guard `len(cs.workers) > MAX_WORKERS` of `handleWork` lets a worker be dispatched
when the table already holds `MAX_WORKERS` workers. -/
theorem handleWork_dispatches_at_max_workers :
    testChainSyncFourWorkers.workers.length = MAX_WORKERS ∧
    chainSync.handleWork testBlockState testHeaderHash testChainSyncFourWorkers
        (testPeerState 0xa0b 1000)
      = .done { cs := { testChainSyncFourWorkers with
                  pendingBlocks := newDisjointBlockSet.addHashAndNumber 0xa0b 1000 },
                err := none, dispatched := some testDispatchedWorker } :=
  ⟨rfl, by decide⟩

/-! ## The pending set, handleTick and the loop of dispatchWorker -/

theorem Map.set_set_self {κ ν : Type} [DecidableEq κ] (m : List (κ × ν)) (k : κ) (v : ν) :
    Map.set (Map.set m k v) k v = Map.set m k v := by
  induction m with
  | nil => simp [Map.set]
  | cons e rest ih =>
    obtain ⟨k0, v0⟩ := e
    by_cases h : k0 = k
    · simp [Map.set, h]
    · simp [Map.set, h, ih]

theorem Map.get_mem {κ ν : Type} [DecidableEq κ] (m : List (κ × ν)) (k : κ) (v : ν)
    (h : Map.get m k = some v) : (k, v) ∈ m := by
  induction m with
  | nil => simp [Map.get] at h
  | cons e rest ih =>
    obtain ⟨k0, v0⟩ := e
    by_cases hk : k0 = k
    · subst hk
      simp [Map.get] at h
      subst h
      exact List.mem_cons_self _ _
    · simp [Map.get, hk] at h
      exact List.mem_cons_of_mem _ (ih h)

theorem Map.mem_set {κ ν : Type} [DecidableEq κ] (m : List (κ × ν)) (k : κ) (v : ν)
    (e : κ × ν) (h : e ∈ Map.set m k v) : e = (k, v) ∨ e ∈ m := by
  induction m with
  | nil =>
    simp [Map.set] at h
    exact Or.inl h
  | cons e0 rest ih =>
    obtain ⟨k0, v0⟩ := e0
    by_cases hk : k0 = k
    · simp [Map.set, hk] at h
      rcases h with h | h
      · exact Or.inl h
      · exact Or.inr (List.mem_cons_of_mem _ h)
    · simp [Map.set, hk] at h
      rcases h with h | h
      · exact Or.inr (h ▸ List.mem_cons_self _ _)
      · rcases ih h with h2 | h2
        · exact Or.inl h2
        · exact Or.inr (List.mem_cons_of_mem _ h2)

/-- The entry that `addHeader` leaves under the hash of the header. -/
theorem addHeader_entry (hashOf : types.Header → common.Hash) (s : disjointBlockSet)
    (header : types.Header) :
    Map.get (s.addHeader hashOf header).blocks (hashOf header)
      = some (match Map.get s.blocks (hashOf header) with
          | some b => { b with header := some header }
          | none => { hash := hashOf header, number := header.Number, header := some header,
                      body := none }) := by
  cases hget : Map.get s.blocks (hashOf header) <;>
    simp [disjointBlockSet.addHeader, hget, Map.get_set_self]

/-- The entries that `addHeader` leaves under the other hashes. -/
theorem addHeader_other (hashOf : types.Header → common.Hash) (s : disjointBlockSet)
    (header : types.Header) (hash : common.Hash) (hne : hash ≠ hashOf header) :
    Map.get (s.addHeader hashOf header).blocks hash = Map.get s.blocks hash := by
  cases hget : Map.get s.blocks (hashOf header) <;>
    simp [disjointBlockSet.addHeader, hget, Map.get_set_other _ _ _ _ hne]

theorem addHeader_twice (hashOf : types.Header → common.Hash) (s : disjointBlockSet)
    (header : types.Header) :
    (s.addHeader hashOf header).addHeader hashOf header = s.addHeader hashOf header := by
  have hentry := addHeader_entry hashOf s header
  cases hget : Map.get s.blocks (hashOf header) with
  | none =>
    simp only [hget] at hentry
    rw [disjointBlockSet.addHeader]
    simp only [hentry]
    simp [disjointBlockSet.addHeader, hget, Map.set_set_self]
  | some b =>
    simp only [hget] at hentry
    rw [disjointBlockSet.addHeader]
    simp only [hentry]
    simp [disjointBlockSet.addHeader, hget, Map.set_set_self]

theorem pendingConsistent_apply (hashOf : types.Header → common.Hash) (s : disjointBlockSet)
    (op : pendingOp) (hs : pendingConsistent hashOf s) :
    pendingConsistent hashOf (s.apply hashOf op) := by
  cases op with
  | addHashAndNumber hash number =>
    intro e he
    rcases Map.mem_set _ _ _ _ he with h | h
    · subst h
      exact ⟨rfl, fun header hh => by cases hh⟩
    · exact hs e h
  | addHeader header =>
    intro e he
    simp only [disjointBlockSet.apply, disjointBlockSet.addHeader] at he
    cases hget : Map.get s.blocks (hashOf header) with
    | none =>
      simp only [hget] at he
      rcases Map.mem_set _ _ _ _ he with h | h
      · subst h
        exact ⟨rfl, fun hd hh => by simp at hh; subst hh; rfl⟩
      · exact hs e h
    | some b =>
      simp only [hget] at he
      rcases Map.mem_set _ _ _ _ he with h | h
      · subst h
        have hb := hs _ (Map.get_mem _ _ _ hget)
        exact ⟨hb.1, fun hd hh => by simp at hh; subst hh; exact hb.1.symm⟩
      · exact hs e h
  | addBlock block =>
    intro e he
    simp only [disjointBlockSet.apply, disjointBlockSet.addBlock] at he
    cases hget : Map.get s.blocks (hashOf block.Header) with
    | none =>
      simp only [hget] at he
      rcases Map.mem_set _ _ _ _ he with h | h
      · subst h
        exact ⟨rfl, fun hd hh => by simp at hh; subst hh; rfl⟩
      · exact hs e h
    | some b =>
      simp only [hget] at he
      rcases Map.mem_set _ _ _ _ he with h | h
      · subst h
        have hb := hs _ (Map.get_mem _ _ _ hget)
        exact ⟨hb.1, fun hd hh => by simp at hh; subst hh; exact hb.1.symm⟩
      · exact hs e h
  | removeBlock hash =>
    intro e he
    exact hs e (List.mem_of_mem_filter he)
  | removeLowerBlocks num =>
    intro e he
    exact hs e (List.mem_of_mem_filter he)

theorem pendingConsistent_run (hashOf : types.Header → common.Hash) (ops : List pendingOp) :
    ∀ s, pendingConsistent hashOf s → pendingConsistent hashOf (s.run hashOf ops) := by
  induction ops with
  | nil => intro s hs; exact hs
  | cons op ops ih =>
    intro s hs
    exact ih _ (pendingConsistent_apply hashOf s op hs)

/-- The loop of `handleTick` passes over complete blocks. -/
theorem handleTickLoop_complete :
    ∀ blocks : List pendingBlock,
      (∀ b ∈ blocks, b.header.isSome = true ∧ b.body.isSome = true) →
      tipSyncer.handleTickLoop blocks = { worker := none, err := none } := by
  intro blocks
  induction blocks with
  | nil => intro _; rfl
  | cons b rest ih =>
    intro h
    have hb := h b (List.mem_cons_self _ _)
    have hrest := ih (fun c hc => h c (List.mem_cons_of_mem _ hc))
    cases hh : b.header with
    | none => simp [hh] at hb
    | some header =>
      cases hbody : b.body with
      | none => simp [hbody] at hb
      | some body => simp [tipSyncer.handleTickLoop, hh, hbody, hrest]

/-- The code of `handleWork` never writes the state field. -/
theorem handleWork_state (bs : BlockState) (hashOf : types.Header → common.Hash)
    (cs : chainSync) (ps : peerState) (r : handleWorkResult)
    (h : chainSync.handleWork bs hashOf cs ps = .done r) : r.cs.state = cs.state := by
  unfold chainSync.handleWork at h
  split at h
  · injection h with h; subst h; rfl
  · split at h
    · split at h
      · injection h with h; subst h; rfl
      · split at h
        · injection h with h; subst h; rfl
        · split at h
          · injection h with h; subst h; rfl
          · split at h <;> (injection h with h; subst h; rfl)
    · simp only at h
      split at h
      · injection h with h; subst h; rfl
      · split at h
        · cases h
        · cases h
        · injection h with h; subst h; rfl
        · injection h with h; subst h; rfl

/-- No event of the engine changes the state field. -/
theorem driver_step_state (hashOf : types.Header → common.Hash) (d d1 : driver)
    (op : driverOp) (h : d.step hashOf op = .done d1) : d1.cs.state = d.cs.state := by
  cases op with
  | setPeerHead p hash number =>
    simp only [driver.step] at h
    cases hs : d.cs.setPeerHead p hash number with
    | none => simp [hs] at h
    | some cs1 =>
      simp only [hs] at h
      injection h with h
      subst h
      rw [setPeerHead_some d.cs cs1 p hash number hs]
  | work bs =>
    simp only [driver.step, driver.work] at h
    split at h
    · cases h
    · rename_i ps rest hq
      split at h
      · rename_i r hr
        injection h with h
        subst h
        have := handleWork_state bs hashOf _ ps r hr
        simpa using this
      · cases h
      · cases h
  | result nets elapsed =>
    simp only [driver.step, driver.result] at h
    split at h
    · cases h
    · rename_i res rest hq
      split at h
      · injection h with h
        subst h
        rfl
      · rw [dispatchWorker_emptyWorker] at h
        cases h
  | tick =>
    simp only [driver.step] at h
    injection h with h
    subst h
    rfl
  | finish i nets elapsed =>
    simp only [driver.step, driver.finish] at h
    split at h
    · cases h
    · rename_i w hw
      split at h
      · rename_i r hr
        injection h with h
        subst h
        obtain ⟨w1, hcs, _⟩ := dispatchWorker_done nets elapsed d.cs w r hr
        simp only [hcs]
      · cases h
      · cases h

theorem driver_run_state (hashOf : types.Header → common.Hash) (ops : List driverOp) :
    ∀ d d1 : driver, driver.run hashOf d ops = .done d1 → d1.cs.state = d.cs.state := by
  induction ops with
  | nil =>
    intro d d1 h
    simp only [driver.run] at h
    injection h with h
    subst h
    rfl
  | cons op ops ih =>
    intro d d1 h
    simp only [driver.run] at h
    split at h
    · rename_i d2 hstep
      exact (ih d2 d1 h).trans (driver_step_state hashOf d d2 op hstep)
    · cases h
    · cases h

/-- When every call succeeds the loop runs to its end without error. -/
theorem dispatchLoop_success (nets : Nat → Network) (cs : chainSync) :
    ∀ (remaining i : Nat),
      (∀ j, j < remaining → (cs.doSync (nets (i + j)) emptyRequest).err = none) →
      (dispatchLoop nets remaining i cs).err = none ∧
      (dispatchLoop nets remaining i cs).requested = doSyncRequests nets cs remaining i := by
  intro remaining
  induction remaining with
  | zero => intro i _; exact ⟨rfl, rfl⟩
  | succ n ih =>
    intro i h
    have h0 : (cs.doSync (nets i) emptyRequest).err = none := by simpa using h 0 (by omega)
    have hrest := ih (i + 1) (fun j hj => by
      have := h (j + 1) (by omega)
      rwa [show i + (j + 1) = i + 1 + j by omega] at this)
    simp only [dispatchLoop, h0, doSync_cs, doSyncRequests]
    exact ⟨hrest.1, by rw [hrest.2]⟩

/-- The first call that fails ends the loop with its error. -/
theorem dispatchLoop_failure (nets : Nat → Network) (cs : chainSync) :
    ∀ (remaining i k : Nat) (err : workerError), k < remaining →
      (∀ j, j < k → (cs.doSync (nets (i + j)) emptyRequest).err = none) →
      (cs.doSync (nets (i + k)) emptyRequest).err = some err →
      (dispatchLoop nets remaining i cs).err = some err ∧
      (dispatchLoop nets remaining i cs).requested = doSyncRequests nets cs (k + 1) i := by
  intro remaining
  induction remaining with
  | zero => intro i k err hk; omega
  | succ n ih =>
    intro i k err hk hok hfail
    cases k with
    | zero =>
      have hfail0 : (cs.doSync (nets i) emptyRequest).err = some err := by simpa using hfail
      simp [dispatchLoop, hfail0, doSyncRequests]
    | succ k =>
      have h0 : (cs.doSync (nets i) emptyRequest).err = none := by simpa using hok 0 (by omega)
      have hrest := ih (i + 1) k err (by omega) (fun j hj => by
        have := hok (j + 1) (by omega)
        rwa [show i + (j + 1) = i + 1 + j by omega] at this)
        (by rwa [show i + (k + 1) = i + 1 + k by omega] at hfail)
      simp only [dispatchLoop, h0, doSync_cs]
      refine ⟨hrest.1, ?_⟩
      rw [hrest.2]
      rfl

/-! ## The recorder, the memory database and the iterator of triedb -/

theorem record_keeps_value (r : triedb.Recorder) (access : triedb.trieAccess)
    (key : List Nat) (h : Map.get r.recordedKeys key = some .RecordedValue) :
    Map.get (r.record access).recordedKeys key = some .RecordedValue := by
  cases access with
  | encodedNodeAccess hash encodedNode => simpa [triedb.Recorder.record] using h
  | valueAccess hash value fullKey =>
    by_cases hk : key = fullKey
    · subst hk; simp [triedb.Recorder.record, Map.get_set_self]
    · simp [triedb.Recorder.record, Map.get_set_other _ _ _ _ hk, h]
  | inlineValueAccess fullKey =>
    by_cases hk : key = fullKey
    · subst hk; simp [triedb.Recorder.record, Map.get_set_self]
    · simp [triedb.Recorder.record, Map.get_set_other _ _ _ _ hk, h]
  | hashAccess fullKey =>
    by_cases hk : key = fullKey
    · subst hk; simp [triedb.Recorder.record, h]
    · cases hget : Map.get r.recordedKeys fullKey <;>
        simp [triedb.Recorder.record, hget, Map.get_set_other _ _ _ _ hk, h]
  | nonExistingNodeAccess fullKey =>
    by_cases hk : key = fullKey
    · subst hk; simp [triedb.Recorder.record, Map.get_set_self]
    · simp [triedb.Recorder.record, Map.get_set_other _ _ _ _ hk, h]

theorem recordAll_keeps_value (accesses : List triedb.trieAccess) (r : triedb.Recorder)
    (key : List Nat) (h : Map.get r.recordedKeys key = some .RecordedValue) :
    Map.get (r.recordAll accesses).recordedKeys key = some .RecordedValue := by
  induction accesses generalizing r with
  | nil => simpa [triedb.Recorder.recordAll] using h
  | cons access rest ih =>
    simp only [triedb.Recorder.recordAll]
    exact ih _ (record_keeps_value r access key h)

theorem record_hashAccess_status (r : triedb.Recorder) (fullKey key : List Nat)
    (h : Map.get (r.record (.hashAccess fullKey)).recordedKeys key = some .RecordedHash) :
    Map.get r.recordedKeys key = some .RecordedHash ∨
      (fullKey = key ∧ Map.get r.recordedKeys key = none) := by
  cases hget : Map.get r.recordedKeys fullKey with
  | some s =>
    simp only [triedb.Recorder.record, hget] at h
    exact Or.inl h
  | none =>
    simp only [triedb.Recorder.record, hget] at h
    by_cases hk : key = fullKey
    · subst hk; exact Or.inr ⟨rfl, hget⟩
    · rw [Map.get_set_other _ _ _ _ hk] at h
      exact Or.inl h

theorem Seek_exhausted (db : triedb.TrieDB) (targetKey : List Nat) (steps rounds : Nat)
    (h : targetKey ≠ []) : triedb.Seek db targetKey steps rounds [] = .running := by
  induction rounds with
  | zero => rfl
  | succ n ih =>
    have hlt : bytesCompare [] targetKey < 0 := by
      cases targetKey with
      | nil => exact absurd rfl h
      | cons b bs => simp [bytesCompare]
    cases steps <;>
      simp [triedb.Seek, triedb.NextKey, triedb.NextEntry, hlt, ih]

/-! ## The requests that dispatchWorker makes -/

theorem doSync_requested (net : Network) (cs : chainSync) (req : BlockRequestMessage) :
    ∀ e ∈ (cs.doSync net req).requested, e.2 = req := by
  unfold chainSync.doSync chainSync.validateResponse
  cases cs.determineSyncPeers req with
  | nil => simp
  | cons p ps =>
    simp only
    cases net.DoBlockRequest p req <;> simp

theorem dispatchLoop_requested (nets : Nat → Network) :
    ∀ (remaining i : Nat) (cs : chainSync),
      ∀ e ∈ (dispatchLoop nets remaining i cs).requested, e.2 = emptyRequest := by
  intro remaining
  induction remaining with
  | zero => intro i cs e he; simp [dispatchLoop] at he
  | succ n ih =>
    intro i cs e he
    simp only [dispatchLoop] at he
    split at he
    · exact doSync_requested _ _ _ e he
    · simp only [List.mem_append] at he
      rcases he with he | he
      · exact doSync_requested _ _ _ e he
      · exact ih _ _ e he

theorem dispatchWorker_requested (nets : Nat → Network) (elapsed : Nat) (cs : chainSync)
    (w : worker) (r : dispatchWorkerResult)
    (h : cs.dispatchWorker nets elapsed w = .done r) :
    ∀ e ∈ r.requested, e.2 = emptyRequest := by
  unfold chainSync.dispatchWorker at h
  split at h
  · simp only at h
    split at h
    · injection h with h
      subst h
      exact dispatchLoop_requested nets _ _ _
    · cases h
  · cases h

theorem totalRequestedBlocks_unset (reqs : List BlockRequestMessage)
    (h : ∀ req ∈ reqs, req = emptyRequest) :
    totalRequestedBlocks reqs = MAX_RESPONSE_SIZE * reqs.length := by
  induction reqs with
  | nil => rfl
  | cons req rest ih =>
    have h0 : req = emptyRequest := h req (List.mem_cons_self _ _)
    have hrest := ih (fun q hq => h q (List.mem_cons_of_mem _ hq))
    simp only [totalRequestedBlocks] at hrest ⊢
    simp only [List.map_cons, List.sum_cons, hrest, List.length_cons, h0]
    simp [requestedBlocks, emptyRequest, MAX_RESPONSE_SIZE]
    omega

theorem dispatchNumRequests_floor (d : Nat) (hlo : MAX_RESPONSE_SIZE ≤ d) (hhi : d < 2 ^ 63) :
    dispatchNumRequests (int64OfAbs d) = ((d / MAX_RESPONSE_SIZE : Nat) : Int) := by
  have h1 : d % 2 ^ 64 = d := Nat.mod_eq_of_lt (by omega)
  have h2 : ¬ ((d : Int) < (MAX_RESPONSE_SIZE : Int)) := by
    simp only [MAX_RESPONSE_SIZE] at hlo ⊢; omega
  simp only [int64OfAbs, h1, hhi, if_true, dispatchNumRequests, h2, if_false]
  simp [MAX_RESPONSE_SIZE]

/-! # The claims of the specification -/

/-! ## C1: parent-first order of the ready queue -/

/-- C1: in every run of the engine that starts with nothing sent on the ready queue,
whatever `doSync` calls and `handleReadyBlock` routings it consists of, every block sent
on the ready queue has a header whose parent hash is in the local block store or is the
hash of a block sent on the ready queue before it. -/
theorem ready_queue_parent_first (bs : BlockState) (hashOf : types.Header → common.Hash)
    (cs cs1 : chainSync) (ops : List engineOp)
    (hstart : cs.readyBlocks = []) (hrun : engineRun bs hashOf cs ops = some cs1) :
    ∀ (before : List types.BlockData) (b : types.BlockData) (after : List types.BlockData),
      cs1.readyBlocks = before ++ b :: after →
      ∃ header, b.Header = some header ∧
        (bs.HasHeader header.ParentHash = .ok true ∨
          ∃ a ∈ before, a.Hash = header.ParentHash) :=
  parentFirst_engineRun bs hashOf ops cs cs1 (hstart ▸ parentFirst_nil bs) hrun

/-- The run of `TestHandleReadyBlock`, after a `doSync` call: routing block 1 sends
blocks 1, 2 and 3 in this order and leaves the other block 2 pending. -/
theorem ready_queue_parent_first_witness :
    testChainSyncPending.readyBlocks = [] ∧
    engineRun testBlockState testHeaderHash testChainSyncPending
        [.doSync (testNetwork none) (testRequest DIR_ASCENDING), .handleReadyBlock testBlock1]
      = some testChainSyncDrained ∧
    ∀ (before : List types.BlockData) (b : types.BlockData) (after : List types.BlockData),
      testChainSyncDrained.readyBlocks = before ++ b :: after →
      ∃ header, b.Header = some header ∧
        (testBlockState.HasHeader header.ParentHash = .ok true ∨
          ∃ a ∈ before, a.Hash = header.ParentHash) :=
  ⟨rfl, by decide, ready_queue_parent_first testBlockState testHeaderHash testChainSyncPending
    testChainSyncDrained
    [.doSync (testNetwork none) (testRequest DIR_ASCENDING), .handleReadyBlock testBlock1]
    rfl (by decide)⟩

/-! ## C2: a valid response is forwarded -/

/-- C2, the code at the failing input: with the peer "noot" known and a network that
answers with a chain of one block carrying header, body and justification, `doSync`
asks that peer, returns no error, and sends nothing on the ready queue; indeed no call of
`doSync` ever sends on the ready queue. -/
theorem doSync_valid_chain_not_forwarded :
    (testChainSyncWithPeer.doSync (testNetwork (some testFullResponse))
        (testRequest DIR_ASCENDING)).err = none ∧
    (testChainSyncWithPeer.doSync (testNetwork (some testFullResponse))
        (testRequest DIR_ASCENDING)).requested = [("noot", testRequest DIR_ASCENDING)] ∧
    (testChainSyncWithPeer.doSync (testNetwork (some testFullResponse))
        (testRequest DIR_ASCENDING)).cs.readyBlocks = [] ∧
    ∀ (net : Network) (cs : chainSync) (req : BlockRequestMessage),
      (cs.doSync net req).cs.readyBlocks = cs.readyBlocks :=
  ⟨rfl, rfl, rfl, fun net cs req => by rw [doSync_cs]⟩

/-! ## C3: blocks asked for by the requests of a worker -/

/-- C3, the code at the failing input: for the valid ascending worker from block 1 to
block 10, `dispatchWorker` makes one request, `&BlockRequestMessage{}` with `max` unset,
which counts for 128 blocks and not for `|10 − 1| + 1 = 10`; whatever the worker, every
request that `dispatchWorker` makes has `max` unset, so that together they count for 128
times their number. -/
theorem dispatchWorker_asks_for_multiples_of_128 :
    validWorker (testWorker 0 1 0 10 DIR_ASCENDING) 1 10 ∧
    testChainSyncWithPeer.dispatchWorker (fun _ => testNetwork none) 5
        (testWorker 0 1 0 10 DIR_ASCENDING)
      = .done { cs := { testChainSyncWithPeer with
                  resultQueue := [{ testWorker 0 1 0 10 DIR_ASCENDING with duration := 5 }] }
                requested := [("noot", emptyRequest)] } ∧
    totalRequestedBlocks [emptyRequest] = 128 ∧
    totalRequestedBlocks [emptyRequest] ≠ ((10 : Int) - 1).natAbs + 1 ∧
    ∀ (nets : Nat → Network) (elapsed : Nat) (cs : chainSync) (w : worker)
      (r : dispatchWorkerResult), cs.dispatchWorker nets elapsed w = .done r →
      totalRequestedBlocks (r.requested.map Prod.snd) = 128 * r.requested.length := by
  refine ⟨by decide, by decide, by decide, by decide, ?_⟩
  intro nets elapsed cs w r h
  have hall := dispatchWorker_requested nets elapsed cs w r h
  have := totalRequestedBlocks_unset (r.requested.map Prod.snd) (by
    intro req hreq
    obtain ⟨e, he, heq⟩ := List.mem_map.mp hreq
    rw [← heq]
    exact hall e he)
  simpa [MAX_RESPONSE_SIZE] using this

/-! ## C4: number of requests and the explicit max of the last -/

/-- C4, the code at the failing input: for the valid ascending worker from block 1 to
block 129, `dispatchWorker` makes one request whose `max` is unset and not 128; for the
worker from block 1 to block 193 it makes one request and not `⌈192 / 128⌉ = 2`.  Whatever
the worker, no request that `dispatchWorker` makes has an explicit `max`, and for a
distance of at least 128 their number is the distance divided by 128, rounded down. -/
theorem dispatchWorker_requests_without_max :
    validWorker (testWorker 0 1 0 129 DIR_ASCENDING) 1 129 ∧
    testChainSyncWithPeer.dispatchWorker (fun _ => testNetwork none) 5
        (testWorker 0 1 0 129 DIR_ASCENDING)
      = .done { cs := { testChainSyncWithPeer with
                  resultQueue := [{ testWorker 0 1 0 129 DIR_ASCENDING with duration := 5 }] }
                requested := [("noot", emptyRequest)] } ∧
    emptyRequest.Max = none ∧
    validWorker (testWorker 0 1 0 193 DIR_ASCENDING) 1 193 ∧
    testChainSyncWithPeer.dispatchWorker (fun _ => testNetwork none) 5
        (testWorker 0 1 0 193 DIR_ASCENDING)
      = .done { cs := { testChainSyncWithPeer with
                  resultQueue := [{ testWorker 0 1 0 193 DIR_ASCENDING with duration := 5 }] }
                requested := [("noot", emptyRequest)] } ∧
    (((193 : Int) - 1).natAbs + 127) / 128 = 2 ∧
    (∀ (nets : Nat → Network) (elapsed : Nat) (cs : chainSync) (w : worker)
      (r : dispatchWorkerResult), cs.dispatchWorker nets elapsed w = .done r →
      ∀ e ∈ r.requested, e.2.Max = none) ∧
    (∀ d : Nat, 128 ≤ d → d < 2 ^ 63 →
      dispatchNumRequests (int64OfAbs d) = ((d / 128 : Nat) : Int)) := by
  refine ⟨by decide, by decide, rfl, by decide, by decide, by decide, ?_, ?_⟩
  · intro nets elapsed cs w r h e he
    rw [dispatchWorker_requested nets elapsed cs w r h e he]
    rfl
  · intro d hlo hhi
    exact dispatchNumRequests_floor d hlo hhi

/-! ## C5: the failures of workerToRequests -/

/-- C5: `workerToRequests` fails with `errWorkerMissingStartNumber` when the start
number is unset; otherwise with `errWorkerMissingTargetNumber` when the target number is
unset; otherwise with `errInvalidDirection` when the direction is ascending and the
target is below the start, or descending and the target above the start; and it
succeeds for every other worker. -/
theorem workerToRequests_failures (w : worker) :
    (w.startNumber = none → workerToRequests w = .error .errWorkerMissingStartNumber) ∧
    (∀ start, w.startNumber = some start → w.targetNumber = none →
      workerToRequests w = .error .errWorkerMissingTargetNumber) ∧
    (∀ start target, w.startNumber = some start → w.targetNumber = some target →
      ((w.direction = DIR_ASCENDING ∧ target < start) ∨
        (w.direction = DIR_DESCENDING ∧ target > start)) →
      workerToRequests w = .error .errInvalidDirection) ∧
    (∀ start target, w.startNumber = some start → w.targetNumber = some target →
      ¬ ((w.direction = DIR_ASCENDING ∧ target < start) ∨
        (w.direction = DIR_DESCENDING ∧ target > start)) →
      ∃ reqs, workerToRequests w = .ok reqs) := by
  refine ⟨?_, ?_, ?_, ?_⟩
  · intro hs
    simp [workerToRequests, hs]
  · intro start hs ht
    simp [workerToRequests, hs, ht]
  · intro start target hs ht hdir
    simp only [workerToRequests, hs, ht]
    rw [if_pos hdir]
  · intro start target hs ht hdir
    exact ⟨_, workerToRequests_ok w start target hs ht hdir⟩

/-- The ascending worker from block 10 to block 1 of `TestWorkerToRequests`. -/
theorem workerToRequests_failures_witness :
    workerToRequests ⟨0, 0, some 10, 0, some 1, 0, DIR_ASCENDING, 0, none⟩
      = .error .errInvalidDirection :=
  (workerToRequests_failures ⟨0, 0, some 10, 0, some 1, 0, DIR_ASCENDING, 0, none⟩).2.2.1
    10 1 rfl rfl (by decide)

/-! ## C6 and C7: validateResponse -/

/-- C6, the code at the failing input: for the response of
`TestChainSync_validateResponse` whose second block does not name the first as its
parent, `validateResponse` returns no error and the pending set does not hold the second
block; indeed it returns no error and leaves the state as it is for every response. -/
theorem validateResponse_accepts_broken_chain :
    (testBlockData 0 2).Header.map (fun h => h.ParentHash) ≠ some (testBlockData 0 1).Hash ∧
    (newChainSync.validateResponse (some testBrokenChainResponse)).2 = none ∧
    (newChainSync.validateResponse (some testBrokenChainResponse)).1.pendingBlocks.hasBlock
        (testBlockData 0 2).Hash = false ∧
    ∀ (cs : chainSync) (resp : Option BlockResponseMessage),
      cs.validateResponse resp = (cs, none) :=
  ⟨by decide, rfl, rfl, fun _ _ => rfl⟩

/-- C7, the code at the failing input: `validateResponse` returns no error for the nil
response and for the response without block data. -/
theorem validateResponse_accepts_empty_response (cs : chainSync) :
    (cs.validateResponse none).2 = none ∧
    (cs.validateResponse (some { BlockData := [] })).2 = none :=
  ⟨rfl, rfl⟩

/-! ## C8: doSync without peers -/

/-- C8, the code at the failing input: when `determineSyncPeers` yields no peer, `doSync`
makes no request on the network and returns nil, not a `workerError`. -/
theorem doSync_without_peers_returns_nil (net : Network) (cs : chainSync)
    (req : BlockRequestMessage) (hpeers : cs.determineSyncPeers req = []) :
    (cs.doSync net req).err = none ∧ (cs.doSync net req).requested = [] := by
  unfold chainSync.doSync
  rw [hpeers]
  exact ⟨rfl, rfl⟩

/-- The first call of `TestChainSync_doSync`: the engine as created, without peers. -/
theorem doSync_without_peers_returns_nil_witness :
    newChainSync.determineSyncPeers (testRequest DIR_ASCENDING) = [] ∧
    (newChainSync.doSync (testNetwork none) (testRequest DIR_ASCENDING)).err = none ∧
    (newChainSync.doSync (testNetwork none) (testRequest DIR_ASCENDING)).requested = [] :=
  ⟨rfl, doSync_without_peers_returns_nil (testNetwork none) newChainSync
    (testRequest DIR_ASCENDING) rfl⟩

/-! ## C9: a descending response is reversed -/

/-- C9, the code at the failing input: for the descending request and the response
`[block 3, block 2]` of `TestChainSync_doSync`, `doSync` returns no error and sends
nothing on the ready queue, so not block 2 followed by block 3. -/
theorem doSync_descending_chain_not_forwarded :
    (testChainSyncWithPeer.doSync (testNetwork (some testDescendingResponse))
        (testRequest DIR_DESCENDING)).err = none ∧
    (testChainSyncWithPeer.doSync (testNetwork (some testDescendingResponse))
        (testRequest DIR_DESCENDING)).cs.readyBlocks = [] ∧
    (testChainSyncWithPeer.doSync (testNetwork (some testDescendingResponse))
        (testRequest DIR_DESCENDING)).cs.readyBlocks
      ≠ testDescendingResponse.BlockData.reverse :=
  ⟨rfl, rfl, by decide⟩

/-! ## C10: setPeerHead records the head of the peer -/

/-- C10: for every engine state (so whatever the local chain is), peer `p`, hash and
number, `setPeerHead` returns when the work queue has room, and the peer-state table then
maps `p` to the peer state with that hash and that number. -/
theorem setPeerHead_records_peer_head (cs : chainSync) (p : peer.ID) (hash : common.Hash)
    (number : Int) (hroom : cs.workQueue.length < queueCapacity) :
    ∃ cs1, cs.setPeerHead p hash number = some cs1 ∧
      Map.get cs1.peerState p = some { who := "", hash := hash, number := number } := by
  have hsome : cs.setPeerHead p hash number
      = some { cs with
          peerState := Map.set cs.peerState p { who := "", hash := hash, number := number }
          workQueue := cs.workQueue ++ [{ who := "", hash := hash, number := number }] } := by
    unfold chainSync.setPeerHead
    simp only
    rw [if_pos hroom]
  exact ⟨_, hsome, Map.get_set_self cs.peerState p _⟩

/-- The first call of `TestChainSync_SetPeerHead`: peer "noot" at block 1000. -/
theorem setPeerHead_records_peer_head_witness :
    newChainSync.workQueue.length < queueCapacity ∧
    ∃ cs1, newChainSync.setPeerHead "noot" 0xa0b 1000 = some cs1 ∧
      Map.get cs1.peerState "noot" = some { who := "", hash := 0xa0b, number := 1000 } :=
  ⟨by decide, setPeerHead_records_peer_head newChainSync "noot" 0xa0b 1000 (by decide)⟩

/-! ## C11: setPeerHead and the work queue -/

/-- C11, the code at the failing input: with the local head at block 1000 and block 999
of the local chain being `0xa0b`, `setPeerHead("noot", 0xa0b, 999)` puts the peer state on
the work queue; indeed every call of `setPeerHead` that returns has put the peer state on
the work queue, whatever the number. -/
theorem setPeerHead_queues_every_head :
    (testBlockStateAt1000 998 0xa0b).BestBlockHeader = .ok { ParentHash := 0, Number := 1000 } ∧
    (testBlockStateAt1000 998 0xa0b).GetHashByNumber 999 = .ok 0xa0b ∧
    newChainSync.setPeerHead "noot" 0xa0b 999 = some (testChainSyncAfterSetPeerHead 999) ∧
    (testChainSyncAfterSetPeerHead 999).workQueue = [testPeerState 0xa0b 999] ∧
    ∀ (cs cs1 : chainSync) (p : peer.ID) (hash : common.Hash) (number : Int),
      cs.setPeerHead p hash number = some cs1 →
      cs1.workQueue = cs.workQueue ++ [testPeerState hash number] := by
  refine ⟨rfl, rfl, by decide, rfl, ?_⟩
  intro cs cs1 p hash number h
  rw [setPeerHead_some cs cs1 p hash number h]
  rfl

/-! ## C12 and C13: a peer on an invalid fork -/

/-- C12, the code at the failing input: with the local head at block 1000, the highest
finalised block at 1000 and another hash than `0xa0b` at block 999, `handleWork` on the
peer head `(0xa0b, 999)` returns no error; indeed `handleWork` returns no error at all
when the queries of the block state succeed. -/
theorem handleWork_invalid_fork_returns_nil :
    chainSync.handleWork (testBlockStateAt1000 1000 0) testHeaderHash
        { testChainSyncAfterSetPeerHead 999 with workQueue := [] } (testPeerState 0xa0b 999)
      = .done { cs := { testChainSyncAfterSetPeerHead 999 with workQueue := [] },
                err := none, dispatched := none } ∧
    ∀ (bs : BlockState) (hashOf : types.Header → common.Hash) (cs : chainSync)
      (ps : peerState) (head fin : types.Header) (r : handleWorkResult),
      bs.BestBlockHeader = .ok head → (∀ n, ∃ hash, bs.GetHashByNumber n = .ok hash) →
      bs.GetHighestFinalisedHeader = .ok fin →
      chainSync.handleWork bs hashOf cs ps = .done r → r.err = none :=
  ⟨by decide, fun bs hashOf cs ps head fin r hhead hhash hfin h =>
    handleWork_no_error bs hashOf cs ps head fin hhead hhash hfin r h⟩

/-- C13, the code at the failing input: after `setPeerHead("noot", 0xa0b, 999)` and the
handling of that peer state on an invalid fork (local head and highest finalised block
1000, another hash at block 999), "noot" is still a key of the peer-state table; indeed
the entry of every peer but the one with the empty id survives, since `handleWork`
deletes the key `ps.who`, which `setPeerHead` leaves empty. -/
theorem invalid_fork_peer_stays :
    driver.run testHeaderHash newDriver
        [.setPeerHead "noot" 0xa0b 999, .work (testBlockStateAt1000 1000 0)]
      = .done { cs := { testChainSyncAfterSetPeerHead 999 with workQueue := [] },
                running := [] } ∧
    Map.get ({ testChainSyncAfterSetPeerHead 999 with workQueue := [] } : chainSync).peerState
        "noot" = some (testPeerState 0xa0b 999) ∧
    ∀ (bs : BlockState) (hashOf : types.Header → common.Hash) (cs cs1 : chainSync)
      (p : peer.ID) (hash : common.Hash) (number : Int) (r : handleWorkResult),
      p ≠ "" → cs.setPeerHead p hash number = some cs1 →
      chainSync.handleWork bs hashOf cs1 (testPeerState hash number) = .done r →
      Map.get r.cs.peerState p = some (testPeerState hash number) := by
  refine ⟨by decide, by decide, ?_⟩
  intro bs hashOf cs cs1 p hash number r hp hset hwork
  have hget : Map.get cs1.peerState p = some (testPeerState hash number) := by
    rw [setPeerHead_some cs cs1 p hash number hset]
    exact Map.get_set_self cs.peerState p _
  rcases handleWork_peerState bs hashOf cs1 _ r hwork with h | h
  · rw [h, hget]
  · rw [h]
    show Map.get (Map.delete cs1.peerState "") p = _
    rw [Map.get_delete_other _ _ _ hp, hget]

/-! ## C14: the size of the workers table -/

/-- C14: in every state that the engine reaches from its initial state by calls of
`setPeerHead`, handled peer states, finished workers, handled results and ticks, the
workers table holds at most `MAX_WORKERS` entries. -/
theorem workers_table_bounded (hashOf : types.Header → common.Hash) (ops : List driverOp)
    (d : driver) (hrun : driver.run hashOf newDriver ops = .done d) :
    d.cs.workers.length ≤ MAX_WORKERS := by
  have h := driver_run_workers hashOf ops newDriver d hrun
  have h0 : newDriver.cs.workers.length = 0 := rfl
  omega

/-- A run of the engine: a peer ahead is announced and handled, the worker runs to its
end without error and its result is handled. -/
theorem workers_table_bounded_witness :
    driver.run testHeaderHash newDriver
        [.setPeerHead "a" 1 1000, .work testBlockState, .tick,
         .finish 0 (fun _ => testNetwork none) 5, .result (fun _ => testNetwork none) 5]
      = .done { cs := { newChainSync with
                  peerState := [("a", testPeerState 1 1000)]
                  pendingBlocks := newDisjointBlockSet.addHashAndNumber 1 1000 },
                running := [] } ∧
    ({ cs := { newChainSync with
          peerState := [("a", testPeerState 1 1000)]
          pendingBlocks := newDisjointBlockSet.addHashAndNumber 1 1000 },
       running := [] } : driver).cs.workers.length ≤ MAX_WORKERS :=
  ⟨by decide, workers_table_bounded testHeaderHash
    [.setPeerHead "a" 1 1000, .work testBlockState, .tick,
     .finish 0 (fun _ => testNetwork none) 5, .result (fun _ => testNetwork none) 5] _
    (by decide)⟩

/-! ## C15: one worker in bootstrap mode -/

/-- C15, the code at the failing input: in bootstrap mode, after two peers ahead of the
local head were announced and handled, two workers are running at once, the second
dispatched while the first is outstanding, and the workers table is empty; the table
itself never holds more than one worker in a reachable state. -/
theorem bootstrap_second_worker_dispatched :
    driver.run testHeaderHash newDriver
        [.setPeerHead "a" 1 1000, .setPeerHead "b" 2 2000, .work testBlockState,
         .work testBlockState]
      = .done testDriverTwoRunning ∧
    testDriverTwoRunning.cs.state = bootstrap ∧
    testDriverTwoRunning.running.length = 2 ∧
    testDriverTwoRunning.cs.workers = [] ∧
    ∀ (hashOf : types.Header → common.Hash) (ops : List driverOp) (d : driver),
      driver.run hashOf newDriver ops = .done d → d.cs.workers.length ≤ 1 := by
  refine ⟨by decide, rfl, rfl, rfl, ?_⟩
  intro hashOf ops d hrun
  have h := driver_run_workers hashOf ops newDriver d hrun
  have h0 : newDriver.cs.workers.length = 0 := rfl
  omega

/-! ## C16: a dispatched worker is in the workers table -/

/-- C16, the code at the failing input: `handleWork` on a peer ahead of the local head
dispatches a worker with id 0 and the workers table has no entry under that id after it
returns; indeed `handleWork` never changes the workers table nor `nextWorker`. -/
theorem handleWork_never_records_worker :
    chainSync.handleWork testBlockState testHeaderHash
        { testChainSyncAfterSetPeerHead 1000 with workQueue := [] } (testPeerState 0xa0b 1000)
      = .done { cs := { testChainSyncAfterSetPeerHead 1000 with
                  workQueue := []
                  pendingBlocks := newDisjointBlockSet.addHashAndNumber 0xa0b 1000 },
                err := none, dispatched := some testDispatchedWorker } ∧
    Map.get ({ testChainSyncAfterSetPeerHead 1000 with
        workQueue := []
        pendingBlocks := newDisjointBlockSet.addHashAndNumber 0xa0b 1000 } : chainSync).workers
      testDispatchedWorker.id = none ∧
    ∀ (bs : BlockState) (hashOf : types.Header → common.Hash) (cs : chainSync)
      (ps : peerState) (r : handleWorkResult),
      chainSync.handleWork bs hashOf cs ps = .done r →
      r.cs.workers = cs.workers ∧ r.cs.nextWorker = cs.nextWorker := by
  refine ⟨by decide, rfl, ?_⟩
  intro bs hashOf cs ps r h
  refine ⟨handleWork_workers bs hashOf cs ps r h, ?_⟩
  unfold chainSync.handleWork at h
  split at h
  · injection h with h; subst h; rfl
  · split at h
    · split at h
      · injection h with h; subst h; rfl
      · split at h
        · injection h with h; subst h; rfl
        · split at h
          · injection h with h; subst h; rfl
          · split at h <;> (injection h with h; subst h; rfl)
    · simp only at h
      split at h
      · injection h with h; subst h; rfl
      · split at h
        · cases h
        · cases h
        · injection h with h; subst h; rfl
        · injection h with h; subst h; rfl

/-! ## C17 and C18: the workers of bootstrapSyncer -/

/-- C17: when `BestBlockHeader` succeeds with `head`, `handleNewPeerState` of
`bootstrapSyncer` returns no worker if `ps.number ≤ head.Number`, and otherwise a worker
with start number `head.Number + 1`, empty start hash, target hash `ps.hash`, target
number `ps.number`, direction ascending and request data header, body and
justification. -/
theorem handleNewPeerState_worker (bs : BlockState) (ps : peerState) (head : types.Header)
    (hhead : bs.BestBlockHeader = .ok head) :
    (ps.number ≤ head.Number →
      bootstrapSyncer.handleNewPeerState bs ps = { worker := none, err := none }) ∧
    (head.Number < ps.number →
      bootstrapSyncer.handleNewPeerState bs ps =
        { worker := some
            { id := 0, startHash := common.EmptyHash, startNumber := some (head.Number + 1),
              targetHash := ps.hash, targetNumber := some ps.number,
              requestData := RequestedDataHeader + RequestedDataBody + RequestedDataJustification,
              direction := DIR_ASCENDING, duration := 0, err := none }
          err := none }) := by
  unfold bootstrapSyncer.handleNewPeerState
  simp only [hhead]
  constructor
  · intro h
    rw [if_pos h]
  · intro h
    rw [if_neg (by omega)]
    rfl

/-- Local head 0 and a peer at block 1000: the worker goes from block 1 to block 1000. -/
theorem handleNewPeerState_worker_witness :
    bootstrapSyncer.handleNewPeerState testBlockState (testPeerState 0xa0b 1000) =
      { worker := some
          { id := 0, startHash := common.EmptyHash, startNumber := some 1,
            targetHash := 0xa0b, targetNumber := some 1000,
            requestData := 7, direction := DIR_ASCENDING, duration := 0, err := none }
        err := none } :=
  (handleNewPeerState_worker testBlockState (testPeerState 0xa0b 1000)
    { ParentHash := 0, Number := 0 } rfl).2 (by decide)

/-- C18: when `BestBlockHeader` succeeds with `head`, `handleWorkerResult` of
`bootstrapSyncer` returns no worker if the result has no error or its target number is
at most `head.Number`, and otherwise a worker with the target hash, target number,
request data and direction of the result, empty start hash and start number
`head.Number + 1`. -/
theorem handleWorkerResult_worker (bs : BlockState) (res : worker) (head : types.Header)
    (hhead : bs.BestBlockHeader = .ok head) :
    (res.err = none →
      bootstrapSyncer.handleWorkerResult bs res = .done { worker := none, err := none }) ∧
    (∀ target, res.targetNumber = some target → target ≤ head.Number →
      bootstrapSyncer.handleWorkerResult bs res = .done { worker := none, err := none }) ∧
    (∀ err target, res.err = some err → res.targetNumber = some target →
      head.Number < target →
      bootstrapSyncer.handleWorkerResult bs res = .done
        { worker := some
            { id := 0, startHash := common.EmptyHash, startNumber := some (head.Number + 1),
              targetHash := res.targetHash, targetNumber := res.targetNumber,
              requestData := res.requestData, direction := res.direction,
              duration := 0, err := none }
          err := none }) := by
  refine ⟨?_, ?_, ?_⟩
  · intro h
    simp [bootstrapSyncer.handleWorkerResult, h]
  · intro target ht hle
    unfold bootstrapSyncer.handleWorkerResult
    cases res.err with
    | none => rfl
    | some e => simp [hhead, ht, hle]
  · intro err target he ht hlt
    have hn : ¬ target ≤ head.Number := by omega
    simp [bootstrapSyncer.handleWorkerResult, he, hhead, ht, hn]

/-- A failed ascending worker with target 5 on the local head 2: the new worker starts at
block 3. -/
theorem handleWorkerResult_worker_witness :
    bootstrapSyncer.handleWorkerResult (testBlockStateWithHead 2)
        { testFailedDescendingWorker with direction := DIR_ASCENDING, startNumber := some 1 } =
      .done
        { worker := some
            { id := 0, startHash := common.EmptyHash, startNumber := some 3,
              targetHash := 0, targetNumber := some 5,
              requestData := bootstrapRequestData, direction := DIR_ASCENDING,
              duration := 0, err := none }
          err := none } :=
  (handleWorkerResult_worker (testBlockStateWithHead 2)
    { testFailedDescendingWorker with direction := DIR_ASCENDING, startNumber := some 1 }
    { ParentHash := 0, Number := 2 } rfl).2.2
    { err := .errNilResponse, who := "noot" } 5 rfl rfl (by decide)

/-! ## C19: the direction of the workers of bootstrapSyncer -/

/-- C19 as amended: every worker that `handleNewPeerState` returns satisfies the direction
invariant; every worker that `handleWorkerResult` returns has the direction of the
result and a target number at or above its start number, so it satisfies the direction
invariant whenever the direction of the result is not descending. -/
theorem bootstrap_workers_direction (bs : BlockState) (ps : peerState) (res : worker) :
    (∀ w, (bootstrapSyncer.handleNewPeerState bs ps).worker = some w →
      directionInvariant w) ∧
    (∀ r w, bootstrapSyncer.handleWorkerResult bs res = .done r → r.worker = some w →
      w.direction = res.direction ∧
      (∃ start target, w.startNumber = some start ∧ w.targetNumber = some target ∧
        target ≥ start) ∧
      (res.direction ≠ DIR_DESCENDING → directionInvariant w)) := by
  constructor
  · intro w hw
    unfold bootstrapSyncer.handleNewPeerState at hw
    split at hw
    · cases hw
    · rename_i head _
      split at hw
      · cases hw
      · rename_i hlt
        simp only [Option.some.injEq] at hw
        subst hw
        intro start target hs ht
        simp only [Option.some.injEq] at hs ht
        subst hs; subst ht
        exact ⟨fun _ => by omega, fun hd => by simp [DIR_ASCENDING, DIR_DESCENDING] at hd⟩
  · intro r w hr hw
    unfold bootstrapSyncer.handleWorkerResult at hr
    split at hr
    · injection hr with hr; subst hr; cases hw
    · split at hr
      · injection hr with hr; subst hr; cases hw
      · rename_i head _
        split at hr
        · cases hr
        · rename_i target _
          split at hr
          · injection hr with hr; subst hr; cases hw
          · rename_i hlt
            injection hr with hr
            subst hr
            simp only [Option.some.injEq] at hw
            subst hw
            refine ⟨rfl, ⟨head.Number + 1, target, rfl, rfl, by omega⟩, ?_⟩
            intro hdir start tgt hs ht
            simp only [Option.some.injEq] at hs ht
            subst hs; subst ht
            exact ⟨fun _ => by omega, fun hd => absurd hd hdir⟩

/-- The worker for a peer at block 1000 on the local head 0. -/
theorem bootstrap_workers_direction_witness :
    directionInvariant
      { id := 0, startHash := common.EmptyHash, startNumber := some 1,
        targetHash := 0xa0b, targetNumber := some 1000,
        requestData := bootstrapRequestData, direction := DIR_ASCENDING, duration := 0,
        err := none } :=
  (bootstrap_workers_direction testBlockState (testPeerState 0xa0b 1000) emptyWorker).1 _ rfl

/-- C19 as stated fails: for the failed descending worker from block 10 down to block 5
and the local head 2, `handleWorkerResult` returns a descending worker from block 3 to
block 5, whose start is below its target. -/
theorem handleWorkerResult_descending_breaks_direction :
    bootstrapSyncer.handleWorkerResult (testBlockStateWithHead 2) testFailedDescendingWorker
      = .done
          { worker := some
              { id := 0, startHash := common.EmptyHash, startNumber := some 3,
                targetHash := 0, targetNumber := some 5,
                requestData := bootstrapRequestData, direction := DIR_DESCENDING,
                duration := 0, err := none }
            err := none } ∧
    directionInvariant testFailedDescendingWorker ∧
    ¬ directionInvariant
      { id := 0, startHash := common.EmptyHash, startNumber := some 3,
        targetHash := 0, targetNumber := some 5,
        requestData := bootstrapRequestData, direction := DIR_DESCENDING,
        duration := 0, err := none } :=
  ⟨by decide, by decide, by decide⟩

/-! ## C20: workers have their numbers set -/

/-- C20, the code at the failing input: for a pending block known by hash and number
only, `handleTick` of `tipSyncer` returns a worker whose start and target numbers are
nil; `workerToRequests` fails on it with `errWorkerMissingStartNumber`, as on the worker
`&worker{}` that the driver dispatches after a failed result, and `dispatchWorker`
dereferences nil on both. -/
theorem tipSyncer_worker_without_numbers :
    tipSyncer.handleTick testPendingHashOnly = { worker := some testHashOnlyWorker, err := none } ∧
    testHashOnlyWorker.startNumber = none ∧ testHashOnlyWorker.targetNumber = none ∧
    workerToRequests testHashOnlyWorker = .error .errWorkerMissingStartNumber ∧
    emptyWorker.startNumber = none ∧ emptyWorker.targetNumber = none ∧
    workerToRequests emptyWorker = .error .errWorkerMissingStartNumber ∧
    ∀ (nets : Nat → Network) (elapsed : Nat) (cs : chainSync),
      cs.dispatchWorker nets elapsed testHashOnlyWorker = .nilDereference ∧
      cs.dispatchWorker nets elapsed emptyWorker = .nilDereference :=
  ⟨by decide, rfl, rfl, rfl, rfl, rfl, rfl, fun _ _ _ => ⟨rfl, rfl⟩⟩

/-! ## C21 and C22: handleTick of tipSyncer -/

/-- C21, the code at the failing input: for a pending block known by hash and number
only, `handleTick` of `tipSyncer` returns a worker addressed by the hash of that block
whose request data is 0, so that it asks neither for the header nor for the body; indeed
that is the worker for every pending set whose first block has no header. -/
theorem handleTick_hash_only_asks_for_nothing :
    tipSyncer.handleTick testPendingHashOnly
      = { worker := some testHashOnlyWorker, err := none } ∧
    testHashOnlyWorker.startHash = 0xa0b ∧ testHashOnlyWorker.targetHash = 0xa0b ∧
    testHashOnlyWorker.requestData = 0 ∧
    ¬ asksFor testHashOnlyWorker.requestData RequestedDataHeader ∧
    ¬ asksFor testHashOnlyWorker.requestData RequestedDataBody ∧
    ∀ (s : disjointBlockSet) (hash : common.Hash) (b : pendingBlock)
      (rest : List (common.Hash × pendingBlock)),
      s.blocks = (hash, b) :: rest → b.header = none →
      tipSyncer.handleTick s
        = { worker := some { emptyWorker with startHash := b.hash, targetHash := b.hash },
            err := none } := by
  refine ⟨by decide, rfl, rfl, rfl, by decide, by decide, ?_⟩
  intro s hash b rest hs hb
  simp [tipSyncer.handleTick, disjointBlockSet.size, disjointBlockSet.getBlocks, hs,
    tipSyncer.handleTickLoop, hb]

/-- C22, the code at the failing input: for a pending set that holds one complete block
on an unknown parent, `handleTick` of `tipSyncer` returns no worker; indeed it returns no
worker whenever every pending block has its header and its body. -/
theorem handleTick_complete_blocks_no_worker :
    testPendingComplete.size = 1 ∧
    Map.get testPendingComplete.blocks (testHeaderHash testForkHeader)
      = some { hash := testHeaderHash testForkHeader, number := 2,
               header := some testForkHeader, body := some { bytes := [] } } ∧
    tipSyncer.handleTick testPendingComplete = { worker := none, err := none } ∧
    ∀ s : disjointBlockSet,
      (∀ e ∈ s.blocks, e.2.header.isSome = true ∧ e.2.body.isSome = true) →
      tipSyncer.handleTick s = { worker := none, err := none } := by
  refine ⟨rfl, by decide, by decide, ?_⟩
  intro s hs
  unfold tipSyncer.handleTick
  split
  · rfl
  · apply handleTickLoop_complete
    intro b hb
    obtain ⟨e, he, heb⟩ := List.mem_map.mp hb
    exact heb ▸ hs e he

/-! ## C23, C24 and C25: adding to the pending set -/

/-- C23, the code at the failing input: when the pending set holds a block with header
and body under a hash, `addHashAndNumber` for that hash leaves an entry without header
and without body; indeed the entry it leaves never has a header or a body. -/
theorem addHashAndNumber_drops_header :
    Map.get testPendingComplete.blocks (testHeaderHash testForkHeader)
      = some { hash := testHeaderHash testForkHeader, number := 2,
               header := some testForkHeader, body := some { bytes := [] } } ∧
    Map.get (testPendingComplete.addHashAndNumber (testHeaderHash testForkHeader) 2).blocks
        (testHeaderHash testForkHeader)
      = some { hash := testHeaderHash testForkHeader, number := 2, header := none,
               body := none } ∧
    ∀ (s : disjointBlockSet) (hash : common.Hash) (number : Int),
      Map.get (s.addHashAndNumber hash number).blocks hash
        = some { hash := hash, number := number, header := none, body := none } :=
  ⟨by decide, by decide, fun s hash number => Map.get_set_self s.blocks hash _⟩

/-- C24: `addHashAndNumber` and `addHeader` are idempotent: the same call twice in a row
leaves exactly the set that one call leaves. -/
theorem add_twice_is_add_once (hashOf : types.Header → common.Hash) (s : disjointBlockSet)
    (hash : common.Hash) (number : Int) (header : types.Header) :
    (s.addHashAndNumber hash number).addHashAndNumber hash number
      = s.addHashAndNumber hash number ∧
    (s.addHeader hashOf header).addHeader hashOf header = s.addHeader hashOf header := by
  refine ⟨?_, addHeader_twice hashOf s header⟩
  simp [disjointBlockSet.addHashAndNumber, Map.set_set_self]

/-- C25 as amended: after `addHeader` the entry under the hash of the header has that
header; when no entry was there before, its hash is the hash of the header, its number
the number of the header and it has no body; an entry that was there keeps its hash, its
number and its body; the entries under all other hashes are unchanged. -/
theorem addHeader_sets_header (hashOf : types.Header → common.Hash) (s : disjointBlockSet)
    (header : types.Header) :
    (Map.get s.blocks (hashOf header) = none →
      Map.get (s.addHeader hashOf header).blocks (hashOf header)
        = some { hash := hashOf header, number := header.Number, header := some header,
                 body := none }) ∧
    (∀ b, Map.get s.blocks (hashOf header) = some b →
      Map.get (s.addHeader hashOf header).blocks (hashOf header)
        = some { hash := b.hash, number := b.number, header := some header,
                 body := b.body }) ∧
    (∀ hash, hash ≠ hashOf header →
      Map.get (s.addHeader hashOf header).blocks hash = Map.get s.blocks hash) := by
  have hentry := addHeader_entry hashOf s header
  refine ⟨?_, ?_, fun hash hne => addHeader_other hashOf s header hash hne⟩
  · intro hnone
    rw [hentry, hnone]
  · intro b hb
    rw [hentry, hb]

/-- A block announced at number 7 keeps that number when its header arrives. -/
theorem addHeader_sets_header_witness :
    Map.get ((newDisjointBlockSet.addHashAndNumber (testHeaderHash testForkHeader) 7).addHeader
        testHeaderHash testForkHeader).blocks (testHeaderHash testForkHeader)
      = some { hash := testHeaderHash testForkHeader, number := 7,
               header := some testForkHeader, body := none } :=
  (addHeader_sets_header testHeaderHash
    (newDisjointBlockSet.addHashAndNumber (testHeaderHash testForkHeader) 7) testForkHeader).2.1
    { hash := testHeaderHash testForkHeader, number := 7, header := none, body := none }
    (by decide)

/-- C25 as stated fails: after `addHashAndNumber` with number 7 for the hash of a header
of block 2, `addHeader` of that header leaves the entry with number 7, not 2. -/
theorem addHeader_keeps_announced_number :
    testForkHeader.Number = 2 ∧
    Map.get ((newDisjointBlockSet.addHashAndNumber (testHeaderHash testForkHeader) 7).addHeader
        testHeaderHash testForkHeader).blocks (testHeaderHash testForkHeader)
      = some { hash := testHeaderHash testForkHeader, number := 7,
               header := some testForkHeader, body := none } ∧
    ¬ ∃ e, Map.get ((newDisjointBlockSet.addHashAndNumber (testHeaderHash testForkHeader)
          7).addHeader testHeaderHash testForkHeader).blocks (testHeaderHash testForkHeader)
        = some e ∧ e.number = testForkHeader.Number := by
  refine ⟨rfl, by decide, ?_⟩
  rintro ⟨e, he, hn⟩
  have h : Map.get ((newDisjointBlockSet.addHashAndNumber (testHeaderHash testForkHeader)
      7).addHeader testHeaderHash testForkHeader).blocks (testHeaderHash testForkHeader)
      = some { hash := testHeaderHash testForkHeader, number := 7,
               header := some testForkHeader, body := none } := by decide
  rw [h] at he
  injection he with he
  subst he
  revert hn
  decide

/-! ## C26 and C27: removal and the invariant of the pending set -/

/-- C26: after `removeLowerBlocks(num)` the set holds exactly the entries of the set
before whose number is greater than `num`, as they were and in their order; every entry
with a number at most `num` is gone. -/
theorem removeLowerBlocks_keeps_higher (s : disjointBlockSet) (num : Int) :
    (∀ e, e ∈ (s.removeLowerBlocks num).blocks ↔ e ∈ s.blocks ∧ num < e.2.number) ∧
    (s.removeLowerBlocks num).blocks.Sublist s.blocks ∧
    (∀ e ∈ s.blocks, e.2.number ≤ num → e ∉ (s.removeLowerBlocks num).blocks) := by
  refine ⟨?_, List.filter_sublist _, ?_⟩
  · intro e
    simp only [disjointBlockSet.removeLowerBlocks, List.mem_filter, decide_eq_true_eq]
    constructor
    · rintro ⟨h1, h2⟩
      exact ⟨h1, by omega⟩
    · rintro ⟨h1, h2⟩
      exact ⟨h1, by omega⟩
  · intro e _ hle hmem
    simp only [disjointBlockSet.removeLowerBlocks, List.mem_filter, decide_eq_true_eq] at hmem
    exact hmem.2 hle

/-- C27: in every pending set reached from the empty set by calls of `addHashAndNumber`,
`addHeader`, `addBlock`, `removeBlock` and `removeLowerBlocks`, each entry is stored under
its own hash, and a header it has hashes to that hash. -/
theorem pending_entries_consistent (hashOf : types.Header → common.Hash)
    (ops : List pendingOp) :
    ∀ e ∈ (newDisjointBlockSet.run hashOf ops).blocks,
      e.2.hash = e.1 ∧ ∀ header, e.2.header = some header → hashOf header = e.2.hash :=
  pendingConsistent_run hashOf ops newDisjointBlockSet (fun e he => by cases he)

/-- A block announced at number 7 whose header then arrives, next to a complete block
and after a clean-up below block 1: the entry of the announced block is stored under its
hash and its header hashes to it. -/
theorem pending_entries_consistent_witness :
    ((testHeaderHash testForkHeader,
        ({ hash := testHeaderHash testForkHeader, number := 7, header := some testForkHeader,
           body := none } : pendingBlock)) ∈
      (newDisjointBlockSet.run testHeaderHash
        [.addHashAndNumber (testHeaderHash testForkHeader) 7, .addHeader testForkHeader,
         .addBlock { Header := { ParentHash := 0, Number := 1 }, Body := some { bytes := [] } },
         .removeLowerBlocks 1]).blocks) ∧
    (testHeaderHash testForkHeader = testHeaderHash testForkHeader ∧
      ∀ header, some testForkHeader = some header →
        testHeaderHash header = testHeaderHash testForkHeader) :=
  ⟨by decide, pending_entries_consistent testHeaderHash
    [.addHashAndNumber (testHeaderHash testForkHeader) 7, .addHeader testForkHeader,
     .addBlock { Header := { ParentHash := 0, Number := 1 }, Body := some { bytes := [] } },
     .removeLowerBlocks 1]
    (testHeaderHash testForkHeader,
      { hash := testHeaderHash testForkHeader, number := 7, header := some testForkHeader,
        body := none })
    (by decide)⟩

/-! ## C28: the mode after a tick -/

/-- C28, the code at the failing input: with the local head at block 1000 and the single
peer "noot" at block 999, after the peer state was handled and a tick, the state is still
`bootstrap`; indeed every state the engine reaches is `bootstrap`. -/
theorem tick_leaves_bootstrap :
    driver.run testHeaderHash newDriver
        [.setPeerHead "noot" 0xa0b 999, .work (testBlockStateAt1000 998 0xa0b), .tick]
      = .done { cs := { testChainSyncAfterSetPeerHead 999 with workQueue := [] },
                running := [] } ∧
    ({ testChainSyncAfterSetPeerHead 999 with workQueue := [] } : chainSync).state = bootstrap ∧
    bootstrap ≠ idle ∧
    ∀ (hashOf : types.Header → common.Hash) (ops : List driverOp) (d : driver),
      driver.run hashOf newDriver ops = .done d → d.cs.state = bootstrap :=
  ⟨by decide, rfl, by decide, fun hashOf ops d h => driver_run_state hashOf ops newDriver d h⟩

/-! ## C29: dispatchWorker reports the worker once -/

/-- C29: for a worker with both numbers set and no error yet, when the result queue has
room, `dispatchWorker` returns with exactly this worker added to the result queue, only
its duration and its error set; the error is nil when every `doSync` call of the loop
succeeded, and otherwise it is the first `workerError`, the requests made being those of
the calls up to that one. -/
theorem dispatchWorker_reports_once (nets : Nat → Network) (elapsed : Nat) (cs : chainSync)
    (w : worker) (start target : Int)
    (hs : w.startNumber = some start) (ht : w.targetNumber = some target)
    (herr : w.err = none) (hroom : cs.resultQueue.length < queueCapacity) :
    ∃ r w1, cs.dispatchWorker nets elapsed w = .done r ∧
      r.cs = { cs with resultQueue := cs.resultQueue ++ [w1] } ∧
      w1 = { w with err := w1.err, duration := elapsed } ∧
      ((∀ j, j < (dispatchNumRequests (int64OfAbs (target - start).natAbs)).toNat →
          (cs.doSync (nets j) emptyRequest).err = none) →
        w1.err = none ∧
        r.requested = doSyncRequests nets cs
          (dispatchNumRequests (int64OfAbs (target - start).natAbs)).toNat 0) ∧
      (∀ k err, k < (dispatchNumRequests (int64OfAbs (target - start).natAbs)).toNat →
        (∀ j, j < k → (cs.doSync (nets j) emptyRequest).err = none) →
        (cs.doSync (nets k) emptyRequest).err = some err →
        w1.err = some err ∧ r.requested = doSyncRequests nets cs (k + 1) 0) := by
  have hcs := dispatchLoop_cs nets
    (dispatchNumRequests (int64OfAbs (target - start).natAbs)).toNat 0 cs
  have hsucc := dispatchLoop_success nets cs
    (dispatchNumRequests (int64OfAbs (target - start).natAbs)).toNat 0
  have hfail := dispatchLoop_failure nets cs
    (dispatchNumRequests (int64OfAbs (target - start).natAbs)).toNat 0
  obtain ⟨id, startHash, startNumber, targetHash, targetNumber, requestData, direction,
    duration, werr⟩ := w
  simp only at hs ht herr
  subst hs ht herr
  unfold chainSync.dispatchWorker
  simp only
  generalize dispatchLoop nets
    (dispatchNumRequests (int64OfAbs (target - start).natAbs)).toNat 0 cs = L
    at hcs hsucc hfail ⊢
  rw [if_pos (by rw [hcs]; exact hroom)]
  refine ⟨_, (⟨id, startHash, some start, targetHash, some target, requestData, direction,
      elapsed, (match L.err with
        | some err => some err
        | none => none)⟩ : worker), rfl, ?_, rfl, ?_, ?_⟩
  · simp only [hcs]
  · intro hall
    have h := hsucc (fun j hj => by simpa using hall j hj)
    simp only [h.1, h.2, and_self]
  · intro k err hk hok hbad
    have h := hfail k err hk (fun j hj => by simpa using hok j hj) (by simpa using hbad)
    simp only [h.1, h.2, and_self]

/-- A worker over 300 blocks asks twice; the network answers the first call and fails the
second, whose error the worker carries on the result queue. -/
theorem dispatchWorker_reports_once_witness :
    testChainSyncWithPeer.dispatchWorker
        (fun i => if i < 1 then testNetwork none else testFailingNetwork) 5
        { testDispatchedWorker with targetNumber := some 300 }
      = .done
          { cs := { testChainSyncWithPeer with
              resultQueue := [{ testDispatchedWorker with
                targetNumber := some 300, duration := 5,
                err := some { err := .errNilResponse, who := "noot" } }] }
            requested := [("noot", emptyRequest), ("noot", emptyRequest)] } ∧
    (dispatchNumRequests (int64OfAbs ((300 : Int) - 0).natAbs)).toNat = 2 ∧
    ∃ r w1, testChainSyncWithPeer.dispatchWorker
        (fun i => if i < 1 then testNetwork none else testFailingNetwork) 5
        { testDispatchedWorker with targetNumber := some 300 } = .done r ∧
      r.cs = { testChainSyncWithPeer with
        resultQueue := testChainSyncWithPeer.resultQueue ++ [w1] } ∧
      w1 = { ({ testDispatchedWorker with targetNumber := some 300 } : worker) with
        err := w1.err, duration := 5 } ∧
      ((∀ j, j < (dispatchNumRequests (int64OfAbs ((300 : Int) - 0).natAbs)).toNat →
          (testChainSyncWithPeer.doSync
            ((fun i => if i < 1 then testNetwork none else testFailingNetwork) j)
            emptyRequest).err = none) →
        w1.err = none ∧
        r.requested = doSyncRequests
          (fun i => if i < 1 then testNetwork none else testFailingNetwork)
          testChainSyncWithPeer
          (dispatchNumRequests (int64OfAbs ((300 : Int) - 0).natAbs)).toNat 0) ∧
      (∀ k err, k < (dispatchNumRequests (int64OfAbs ((300 : Int) - 0).natAbs)).toNat →
        (∀ j, j < k → (testChainSyncWithPeer.doSync
            ((fun i => if i < 1 then testNetwork none else testFailingNetwork) j)
            emptyRequest).err = none) →
        (testChainSyncWithPeer.doSync
            ((fun i => if i < 1 then testNetwork none else testFailingNetwork) k)
            emptyRequest).err = some err →
        w1.err = some err ∧
        r.requested = doSyncRequests
          (fun i => if i < 1 then testNetwork none else testFailingNetwork)
          testChainSyncWithPeer (k + 1) 0) :=
  ⟨by decide, by decide,
    dispatchWorker_reports_once
      (fun i => if i < 1 then testNetwork none else testFailingNetwork) 5
      testChainSyncWithPeer { testDispatchedWorker with targetNumber := some 300 } 0 300
      rfl rfl rfl (by decide)⟩

/-! ## C30: handling the result of a failed worker -/

/-- C30, the code at the failing input: after a peer ahead was announced and handled and
its worker has come back with an error of the network, the driver's handling of that
result ends in a nil pointer dereference; indeed it does so for every result that carries
an error. -/
theorem failed_result_crashes_driver :
    driver.run testHeaderHash newDriver
        [.setPeerHead "a" 1 1000, .work testBlockState,
         .finish 0 (fun _ => testFailingNetwork) 5]
      = .done testDriverFailedResult ∧
    driver.step testHeaderHash testDriverFailedResult (.result (fun _ => testNetwork none) 5)
      = .nilDereference ∧
    ∀ (d : driver) (res : worker) (rest : List worker) (err : workerError)
      (nets : Nat → Network) (elapsed : Nat),
      d.cs.resultQueue = res :: rest → res.err = some err →
      d.result nets elapsed = .nilDereference := by
  refine ⟨by decide, by decide, ?_⟩
  intro d res rest err nets elapsed hq herr
  simp only [driver.result, hq, herr, dispatchWorker_emptyWorker]

/-! ## C31: the worker of handleWork and the worker of bootstrapSyncer -/

/-- C31, counterexample: in bootstrap mode with no worker, on the local head 0 and for the
peer head `(0xa0b, 1000)`, the worker that `handleWork` dispatches starts at block 0 under
the hash of the head, whereas the worker of `bootstrapSyncer.handleNewPeerState` starts at
block 1 under the empty hash: the start hash and the start number are not the same. -/
theorem handleWork_start_differs_from_bootstrapSyncer :
    newChainSync.state = bootstrap ∧ newChainSync.workers = [] ∧
    chainSync.handleWork testBlockState testHeaderHash newChainSync (testPeerState 0xa0b 1000)
      = .done { cs := { newChainSync with
                  pendingBlocks := newDisjointBlockSet.addHashAndNumber 0xa0b 1000 },
                err := none, dispatched := some testDispatchedWorker } ∧
    bootstrapSyncer.handleNewPeerState testBlockState (testPeerState 0xa0b 1000)
      = { worker := some { testDispatchedWorker with
            startHash := common.EmptyHash, startNumber := some 1,
            requestData := bootstrapRequestData }
          err := none } ∧
    testDispatchedWorker.startNumber = some 0 ∧
    testDispatchedWorker.startHash ≠ common.EmptyHash := by
  decide

/-- C31, amended: in bootstrap mode with an empty workers table, for a peer state ahead of
the local head, `handleWork` dispatches a worker and `bootstrapSyncer.handleNewPeerState`
returns one for the same head; the two have the same target hash, target number and
direction; the worker of `handleWork` starts at the head itself (the hash of the head and
its number), the worker of `handleNewPeerState` at the empty hash and the number after the
head. -/
theorem handleWork_worker_against_bootstrapSyncer (bs : BlockState)
    (hashOf : types.Header → common.Hash) (cs : chainSync) (ps : peerState)
    (head : types.Header) (hhead : bs.BestBlockHeader = .ok head)
    (hstate : cs.state = bootstrap) (hworkers : cs.workers = [])
    (hahead : head.Number < ps.number) :
    ∃ r w v, chainSync.handleWork bs hashOf cs ps = .done r ∧ r.dispatched = some w ∧
      bootstrapSyncer.handleNewPeerState bs ps = { worker := some v, err := none } ∧
      w.targetHash = v.targetHash ∧ w.targetNumber = v.targetNumber ∧
      w.direction = v.direction ∧
      w.startHash = hashOf head ∧ w.startNumber = some head.Number ∧
      v.startHash = common.EmptyHash ∧ v.startNumber = some (head.Number + 1) := by
  have hnot : ¬ ps.number ≤ head.Number := not_le.mpr hahead
  refine ⟨{ cs := { cs with
              pendingBlocks := cs.pendingBlocks.addHashAndNumber ps.hash ps.number },
            err := none,
            dispatched := some
              { id := cs.nextWorker, startHash := hashOf head,
                startNumber := some head.Number, targetHash := ps.hash,
                targetNumber := some ps.number, requestData := 0,
                direction := DIR_ASCENDING, duration := 0, err := none } },
    { id := cs.nextWorker, startHash := hashOf head,
      startNumber := some head.Number, targetHash := ps.hash,
      targetNumber := some ps.number, requestData := 0,
      direction := DIR_ASCENDING, duration := 0, err := none },
    { id := 0, startHash := common.EmptyHash, startNumber := some (head.Number + 1),
      targetHash := ps.hash, targetNumber := some ps.number,
      requestData := bootstrapRequestData, direction := DIR_ASCENDING,
      duration := 0, err := none }, ?_, rfl, ?_, rfl, rfl, rfl, rfl, rfl, rfl, rfl⟩
  · simp [chainSync.handleWork, hhead, hnot, hworkers, chainSync.hasCurrentWorker,
      hasCurrentWorkerLoop, hstate, MAX_WORKERS]
  · simp [bootstrapSyncer.handleNewPeerState, hhead, hnot]

theorem handleWork_worker_against_bootstrapSyncer_witness :
    ∃ r w v, chainSync.handleWork testBlockState testHeaderHash newChainSync
        (testPeerState 0xa0b 1000) = .done r ∧ r.dispatched = some w ∧
      bootstrapSyncer.handleNewPeerState testBlockState (testPeerState 0xa0b 1000)
        = { worker := some v, err := none } ∧
      w.targetHash = v.targetHash ∧ w.targetNumber = v.targetNumber ∧
      w.direction = v.direction ∧
      w.startHash = testHeaderHash { ParentHash := 0, Number := 0 } ∧
      w.startNumber = some (0 : Int) ∧
      v.startHash = common.EmptyHash ∧ v.startNumber = some ((0 : Int) + 1) :=
  handleWork_worker_against_bootstrapSyncer testBlockState testHeaderHash newChainSync
    (testPeerState 0xa0b 1000) { ParentHash := 0, Number := 0 } rfl rfl rfl (by decide)

/-! ## C32: Peek and Next of RecordedNodesIterator -/

/-- C32, the code at the failing input: on a fresh iterator over one record, `Peek` is nil
while `Next` returns the record at position 0; `Peek` is nil whenever the record that
`Next` returns is the last one, and agrees with `Next` in every other state. -/
theorem Peek_nil_before_last_record :
    (triedb.NewRecordedNodesIterator [testRecord 1]).Peek = none ∧
    (triedb.NewRecordedNodesIterator [testRecord 1]).Next
      = (some 0, { nodes := [testRecord 1], index := 0 }) ∧
    (∀ r : triedb.RecordedNodesIterator, r.index + 2 = (r.nodes.length : Int) →
      r.Peek = none ∧ r.Next.1 = some (r.index + 1)) ∧
    (∀ r : triedb.RecordedNodesIterator, r.index + 2 ≠ (r.nodes.length : Int) →
      r.Peek = r.Next.1) := by
  refine ⟨by decide, by decide, ?_, ?_⟩
  · intro r h
    have h1 : ¬ r.index + 1 < (r.nodes.length : Int) - 1 := by omega
    have h2 : r.index < (r.nodes.length : Int) - 1 := by omega
    simp [triedb.RecordedNodesIterator.Peek, triedb.RecordedNodesIterator.Next, h1, h2]
  · intro r h
    by_cases h1 : r.index + 1 < (r.nodes.length : Int) - 1
    · have h2 : r.index < (r.nodes.length : Int) - 1 := by omega
      simp [triedb.RecordedNodesIterator.Peek, triedb.RecordedNodesIterator.Next, h1, h2]
    · have h2 : ¬ r.index < (r.nodes.length : Int) - 1 := by omega
      simp [triedb.RecordedNodesIterator.Peek, triedb.RecordedNodesIterator.Next, h1, h2]

/-! ## C33: Get after Put on MemoryDB -/

/-- C33, counterexample: on a database whose null-node data is the byte 0 and which holds
`[1, 2]` under the key `[7]`, `Put([7], [0])` stores nothing and `Get([7])` still returns
`[1, 2]`; under a key that held nothing, `Get` returns nothing after that `Put`. -/
theorem Put_null_node_data_not_stored :
    testMemoryDB.nullNodeData = [0] ∧
    testNewHash [7] ≠ testMemoryDB.hashedNullNode ∧
    (testMemoryDB.Put testNewHash [7] [0]).Get testNewHash [7] = some [1, 2] ∧
    (testMemoryDB.Put testNewHash [8] [0]).Get testNewHash [8] = none := by
  decide

/-- C33, amended: `Get(k)` right after `Put(k, v)` returns `v` when `v` is not the
null-node data and `k` is not the key of the null node, whatever `k` held before, and
when `v` is the null-node data and `k` is the key of the null node; a `Put` of the
null-node data leaves the database as it was, and `Get` of the key of the null node
returns the null-node data after every `Put`. -/
theorem Get_after_Put (newHash : List Nat → common.Hash) (db : proof.MemoryDB)
    (k v : List Nat) :
    (v ≠ db.nullNodeData → newHash k ≠ db.hashedNullNode →
      (db.Put newHash k v).Get newHash k = some v) ∧
    (v = db.nullNodeData → newHash k = db.hashedNullNode →
      (db.Put newHash k v).Get newHash k = some v) ∧
    (v = db.nullNodeData → db.Put newHash k v = db) ∧
    (newHash k = db.hashedNullNode →
      (db.Put newHash k v).Get newHash k = some db.nullNodeData) := by
  refine ⟨?_, ?_, ?_, ?_⟩
  · intro hv hk
    simp [proof.MemoryDB.Put, proof.MemoryDB.emplace, proof.MemoryDB.Get, hv, hk,
      Map.get_set_self]
  · intro hv hk
    simp [proof.MemoryDB.Put, proof.MemoryDB.emplace, proof.MemoryDB.Get, hv, hk]
  · intro hv
    simp [proof.MemoryDB.Put, proof.MemoryDB.emplace, hv]
  · intro hk
    by_cases hv : v = db.nullNodeData <;>
      simp [proof.MemoryDB.Put, proof.MemoryDB.emplace, proof.MemoryDB.Get, hv, hk]

/-! ## C34: Seek of TrieDBIterator -/

/-- C34, the code at the failing input: on the iterator over a trie of one leaf with the
key `[1]`, the first `NextKey` returns `[1]` and empties the stack, every later `NextKey`
ends at once with the nil key, and `Seek([9])` is still running after any number of
rounds; the same holds for every exhausted iterator and every non-empty target.  With the
target `[1]` the loop ends in the first round. -/
theorem Seek_runs_forever_past_last_key :
    triedb.NewTrieDBIterator testLeafTrieDB = some [{ parentFullKey := [], node := .Leaf [1] }] ∧
    triedb.NextKey testLeafTrieDB 1 [{ parentFullKey := [], node := .Leaf [1] }]
      = .done (some [1], []) ∧
    (∀ steps, triedb.NextKey testLeafTrieDB steps [] = .done (none, [])) ∧
    (∀ rounds, triedb.Seek testLeafTrieDB [9] 1 rounds
        [{ parentFullKey := [], node := .Leaf [1] }] = .running) ∧
    (∀ (db : triedb.TrieDB) (targetKey : List Nat) (steps rounds : Nat), targetKey ≠ [] →
      triedb.Seek db targetKey steps rounds [] = .running) ∧
    triedb.Seek testLeafTrieDB [1] 1 1 [{ parentFullKey := [], node := .Leaf [1] }]
      = .done [] := by
  refine ⟨by decide, by decide, ?_, ?_, ?_, by decide⟩
  · intro steps
    cases steps <;> rfl
  · intro rounds
    cases rounds with
    | zero => rfl
    | succ n =>
      have hnext : triedb.NextKey testLeafTrieDB 1
          [{ parentFullKey := [], node := .Leaf [1] }] = .done (some [1], []) := by decide
      have hlt : bytesCompare [1] [9] < 0 := by decide
      simp only [triedb.Seek, hnext, Option.getD, hlt, if_true]
      exact Seek_exhausted testLeafTrieDB [9] 1 n (by decide)
  · intro db targetKey steps rounds h
    exact Seek_exhausted db targetKey steps rounds h

/-! ## C35: the recorded status of a key -/

/-- C35: a key recorded as `RecordedValue` is still recorded as `RecordedValue` after any
sequence of `record` calls; a value access, an inline-value access and a non-existing-node
access record their key as `RecordedValue`; a hash access leaves a recorder that has the
key unchanged; and when a key is `RecordedHash` after a hash access, it was so before or
the access was to that key and the key was not recorded. -/
theorem recorded_status_never_degrades (r : triedb.Recorder) (key : List Nat)
    (accesses : List triedb.trieAccess)
    (h : Map.get r.recordedKeys key = some .RecordedValue) :
    Map.get (r.recordAll accesses).recordedKeys key = some .RecordedValue ∧
    (∀ (r0 : triedb.Recorder) (hash : common.Hash) (value : List Nat),
      Map.get (r0.record (.valueAccess hash value key)).recordedKeys key
        = some .RecordedValue) ∧
    (∀ r0 : triedb.Recorder,
      Map.get (r0.record (.inlineValueAccess key)).recordedKeys key = some .RecordedValue) ∧
    (∀ r0 : triedb.Recorder,
      Map.get (r0.record (.nonExistingNodeAccess key)).recordedKeys key
        = some .RecordedValue) ∧
    (∀ (r0 : triedb.Recorder) (s : triedb.RecordedForKey),
      Map.get r0.recordedKeys key = some s → r0.record (.hashAccess key) = r0) ∧
    (∀ (r0 : triedb.Recorder) (fullKey : List Nat),
      Map.get (r0.record (.hashAccess fullKey)).recordedKeys key = some .RecordedHash →
      Map.get r0.recordedKeys key = some .RecordedHash ∨
        (fullKey = key ∧ Map.get r0.recordedKeys key = none)) := by
  refine ⟨recordAll_keeps_value accesses r key h, ?_, ?_, ?_, ?_, ?_⟩
  · intro r0 hash value
    simp [triedb.Recorder.record, Map.get_set_self]
  · intro r0
    simp [triedb.Recorder.record, Map.get_set_self]
  · intro r0
    simp [triedb.Recorder.record, Map.get_set_self]
  · intro r0 s hs
    simp [triedb.Recorder.record, hs]
  · intro r0 fullKey h0
    exact record_hashAccess_status r0 fullKey key h0

theorem recorded_status_never_degrades_witness :
    Map.get (triedb.NewRecorder.record (.valueAccess 1 [2] [3])).recordedKeys [3]
      = some .RecordedValue ∧
    Map.get ((triedb.NewRecorder.record (.valueAccess 1 [2] [3])).recordAll
        [.hashAccess [3], .encodedNodeAccess 5 [6], .hashAccess [4],
         .inlineValueAccess [3]]).recordedKeys [3] = some .RecordedValue :=
  ⟨by decide,
    (recorded_status_never_degrades (triedb.NewRecorder.record (.valueAccess 1 [2] [3])) [3]
      [.hashAccess [3], .encodedNodeAccess 5 [6], .hashAccess [4], .inlineValueAccess [3]]
      (by decide)).1⟩

end Gossamer
